import Mathlib

/-
  Verification of the gffy streaming GFF3 statistics engine.

  The definitions below are a shallow embedding of the current draft of the
  engine (src/src/gffy/tools/helpers.py, src/src/gffy/tools/classes.py and the
  driver/aggregation described by the project specification).  Python dicts are
  modelled as association lists with first-match lookup and in-place update;
  Python `array` accumulators are modelled as `List Int`; machine integers are
  unbounded `Int`/`Nat` (CPython integers are unbounded, so no wrap-around is
  modelled); the truthiness test `if feature_id:` is modelled explicitly
  (`None` and the empty string are falsy).
-/

namespace Gffy

/-- Python-dict lookup on an association list: first entry with the key. -/
def dget {κ α : Type} [DecidableEq κ] : List (κ × α) → κ → Option α
  | [], _ => none
  | p :: rest, k => if p.1 = k then some p.2 else dget rest k

/-- Python-dict store `m[k] = v`: replace the first entry with the key, or
append a fresh entry at the end (dict insertion order). -/
def dset {κ α : Type} [DecidableEq κ] : List (κ × α) → κ → α → List (κ × α)
  | [], k, v => [(k, v)]
  | p :: rest, k, v => if p.1 = k then (k, v) :: rest else p :: dset rest k v

/-- In-place mutation `m[k].field = ...` of an object stored in a dict:
apply `f` to the entry when present, do nothing when absent.  (In the Python
source a missing key would raise; the reachable-state theorems below show the
keys used by the engine are always present.) -/
def dmodify {κ α : Type} [DecidableEq κ] : List (κ × α) → κ → (α → α) → List (κ × α)
  | [], _, _ => []
  | p :: rest, k, f => if p.1 = k then (k, f p.2) :: rest else p :: dmodify rest k f

/-- Python truthiness of the optional `feature_id` argument: `None` and the
empty string are falsy. -/
def strTruthy : Option String → Bool
  | none => false
  | some s => !(s == "")

/-- `Gene` (classes.py): per-root accumulated state. -/
structure Gene where
  feature_type : String
  biotype : Option String
  length : Int
  has_cds : Bool
  has_exon : Bool
  has_multiple_exons : Bool
  deriving Repr, DecidableEq

/-- `Gene.__init__`: flags start false. -/
def Gene.init (feature_type : String) (biotype : Option String) (length : Int) : Gene :=
  { feature_type := feature_type, biotype := biotype, length := length,
    has_cds := false, has_exon := false, has_multiple_exons := false }

/-- `Transcript` (classes.py): per-transcript accumulated state. -/
structure Transcript where
  gene_id : String
  type : Option String
  length : Int
  exons_lengths : List Int
  exon_len_sum : Int
  exon_count : Nat
  cds_len_sum : Int
  cds_count : Nat
  cds_lengths : List Int
  deriving Repr, DecidableEq

/-- `Transcript.__init__(gene_id, ttype)`: numeric fields start at zero. -/
def Transcript.init (gene_id : String) (ttype : Option String) : Transcript :=
  { gene_id := gene_id, type := ttype, length := 0,
    exons_lengths := [], exon_len_sum := 0, exon_count := 0,
    cds_len_sum := 0, cds_count := 0, cds_lengths := [] }

/-- The three mutable tables threaded through `process_feature`. -/
structure Tables where
  roots : List (String × Gene)
  id_to_root : List (String × String)
  transcripts : List (String × Transcript)
  deriving Repr, DecidableEq

/-- The empty tables the driver starts from. -/
def Tables.empty : Tables :=
  { roots := [], id_to_root := [], transcripts := [] }

/-- `FEATURE_CODES.get(feature_type, 0)`: 1 for exon, 2 for CDS, 0 otherwise. -/
def featCode (t : String) : Nat :=
  if t == "exon" then 1 else if t == "CDS" then 2 else 0

/-- `id_to_root` after one resolved loop iteration:
`if feature_id: id_to_root[feature_id] = root_id`. -/
def coreItr (fid : Option String) (itr : List (String × String)) (rootId : String) :
    List (String × String) :=
  match fid with
  | some f => if f == "" then itr else dset itr f rootId
  | none => itr

/-- `t = transcripts.get(parent_id)` with the lazy
`Transcript(root_id, None)` fallback of Parent Case 2. -/
def coreLazyT (ts : List (String × Transcript)) (pid rootId : String) : Transcript :=
  match dget ts pid with
  | some t => t
  | none => Transcript.init rootId none

/-- `roots` after one resolved loop iteration: untouched for a gene parent;
for a transcript parent the exon case may set `has_multiple_exons` (when
the incremented count reaches 2) and sets `has_exon`, and the CDS case sets
`has_cds`. -/
def coreRoots (fcode : Nat) (roots : List (String × Gene)) (ts : List (String × Transcript))
    (pid rootId : String) : List (String × Gene) :=
  if pid == rootId then roots
  else if fcode == 1 then
    let newCount := (coreLazyT ts pid rootId).exon_count + 1
    let r1 := if newCount == 2 then
        dmodify roots rootId (fun g => { g with has_multiple_exons := true })
      else roots
    dmodify r1 rootId (fun g => { g with has_exon := true })
  else if fcode == 2 then dmodify roots rootId (fun g => { g with has_cds := true })
  else roots

/-- `transcripts` after one resolved loop iteration: Parent Case 1 creates
or re-targets the transcript row's entry (for a non-exon, non-CDS feature
with an id); Parent Case 2 lazily creates the parent's entry and applies
the exon or CDS accumulation. -/
def coreTs (fid : Option String) (fcode : Nat) (ftype : String) (len : Int)
    (ts : List (String × Transcript)) (pid rootId : String) : List (String × Transcript) :=
  if pid == rootId then
    match fid with
    | some f =>
      if f == "" || !(fcode == 0) then ts
      else match dget ts f with
        | none => dset ts f { Transcript.init rootId (some ftype) with length := len }
        | some t => dset ts f { t with gene_id := rootId, type := some ftype, length := len }
    | none => ts
  else
    let t := coreLazyT ts pid rootId
    if fcode == 1 then
      dset ts pid { t with exon_count := t.exon_count + 1, exons_lengths := t.exons_lengths ++ [len], exon_len_sum := t.exon_len_sum + len }
    else if fcode == 2 then
      dset ts pid { t with cds_count := t.cds_count + 1, cds_len_sum := t.cds_len_sum + len, cds_lengths := t.cds_lengths ++ [len] }
    else match dget ts pid with
      | some _ => ts
      | none => dset ts pid t

/-- State effect of one resolved iteration of the `for parent_id in
parent_ids` loop of `process_feature` (helpers.py lines 219-271), given the
already-looked-up `root_id`, assembled field-wise (the `id_to_root` write
never feeds the `roots`/`transcripts` reads of the same iteration, so the
three components are independent). -/
def stepParentCore (fid : Option String) (fcode : Nat) (ftype : String) (len : Int)
    (s0 : Tables) (pid rootId : String) : Tables :=
  { roots := coreRoots fcode s0.roots s0.transcripts pid rootId,
    id_to_root := coreItr fid s0.id_to_root rootId,
    transcripts := coreTs fid fcode ftype len s0.transcripts pid rootId }

/-- One iteration of the parent loop on the running state-and-flag pair: an
unresolved parent id is skipped, a resolved one applies `stepParentCore` and
sets `processed` (every resolved branch of the Python loop does). -/
def stepParent (fid : Option String) (fcode : Nat) (ftype : String) (len : Int)
    (acc : Tables × Bool) (pid : String) : Tables × Bool :=
  match dget acc.1.id_to_root pid with
  | none => acc
  | some rootId => (stepParentCore fid fcode ftype len acc.1 pid rootId, true)

/-- `process_feature` (helpers.py lines 192-272), returning the updated tables
together with the `processed` flag. -/
def process_feature (fid : Option String) (ftype : String) (len : Int)
    (parent_ids : List String) (biotype : Option String) (s : Tables) : Tables × Bool :=
  if parent_ids.isEmpty && strTruthy fid then
    -- Gene feature: `roots[feature_id] = Gene(...)`, `id_to_root[feature_id] = feature_id`
    let f := fid.getD ""
    ({ s with roots := dset s.roots f (Gene.init ftype biotype len), id_to_root := dset s.id_to_root f f }, true)
  else
    parent_ids.foldl (stepParent fid (featCode ftype) ftype len) (s, false)

/-- The four gene categories of the current draft. -/
inductive Category
  | coding
  | long_non_coding
  | short_non_coding
  | pseudogene
  deriving Repr, DecidableEq

/-- Contiguous-subsequence test on character lists (used for Python `in`). -/
def containsSeq (pat : List Char) : List Char → Bool
  | [] => pat.isEmpty
  | c :: rest => pat.isPrefixOf (c :: rest) || containsSeq pat rest

/-- `"protein_coding" in biotype.lower()`: case-insensitive substring test
(lower-casing is modelled character-wise, which agrees with Python on the
ASCII identifiers used for biotypes). -/
def containsProteinCoding (s : String) : Bool :=
  containsSeq ("protein_coding".toList) (s.toList.map Char.toLower)

/-- `categorize_roots` (helpers.py lines 75-96): assign each root its category
(`none` models Python `None`, the dropped-from-report case). -/
def categorize_roots (roots : List (String × Gene)) : List (String × Option Category) :=
  roots.map (fun p =>
    let info := p.2
    -- `biotype = info.biotype or ""`
    let biotype := info.biotype.getD ""
    (p.1,
      if info.feature_type == "pseudogene" then some Category.pseudogene
      else if info.has_cds || containsProteinCoding biotype then some Category.coding
      else if info.has_exon then
        if info.length > 200 || info.has_multiple_exons then some Category.long_non_coding
        else some Category.short_non_coding
      else none))

/-- One recorded `process_feature` call (the ingest arguments). -/
structure Call where
  fid : Option String
  ftype : String
  len : Int
  parents : List String
  biotype : Option String
  deriving Repr, DecidableEq

/-- Fold a sequence of `process_feature` calls from the empty tables. -/
def runCalls (calls : List Call) : Tables :=
  calls.foldl (fun s c => (process_feature c.fid c.ftype c.len c.parents c.biotype s).1) Tables.empty

/-- The classification rule exactly as the specification states it:
`pseudogene` by feature type; else `coding` when `has_cds` is set or the
biotype contains `protein_coding`; else, when `has_exon` is set,
`long_non_coding` when the length exceeds 200 or `has_multiple_exons` is
set and `short_non_coding` otherwise; else no category. -/
def specCategory (g : Gene) : Option Category :=
  if g.feature_type == "pseudogene" then some Category.pseudogene
  else if g.has_cds || containsProteinCoding (g.biotype.getD "") then some Category.coding
  else if g.has_exon then
    if g.length > 200 || g.has_multiple_exons then some Category.long_non_coding
    else some Category.short_non_coding
  else none

/-- The bookkeeping invariant of a transcript record: the exon and CDS
length lists agree with the corresponding counters and sums. -/
def TWellformed (t : Transcript) : Prop :=
  t.exons_lengths.length = t.exon_count ∧ t.cds_lengths.length = t.cds_count ∧
  t.exons_lengths.sum = t.exon_len_sum ∧ t.cds_lengths.sum = t.cds_len_sum

/-- Per-(category, transcript-type) accumulation bucket.  Modelled from the
spec: the aggregation walk of the current draft is absent from the source
tree (only its bucket constructor `init_transcript_type_statistics_dictionary`
remains in helpers.py), so this structure and the walk below follow §4.5 of
the specification verbatim. -/
structure TypeStats where
  gene_ids : List String
  length_list : List Int
  exon_length_list : List Int
  spliced_length_list : List Int
  intron_length_list : List Int
  cds_length_list : List Int
  protein_length_list : List Int
  deriving Repr, DecidableEq

/-- The fresh bucket (all lists empty). -/
def TypeStats.empty : TypeStats :=
  { gene_ids := [], length_list := [], exon_length_list := [], spliced_length_list := [],
    intron_length_list := [], cds_length_list := [], protein_length_list := [] }

/-- Set-insertion for the bucket's gene-id set. -/
def addGeneId (l : List String) (g : String) : List String :=
  if l.contains g then l else l ++ [g]

/-- Modelled from the spec (§4.5): push one transcript's measurements into
its bucket (gene id, span length, exon lengths, spliced length, CDS and
protein lengths when `cds_count > 0`, and one intron aggregate
`length − exon_len_sum` when `exon_count > 1`). -/
def pushTranscript (t : Transcript) (b : TypeStats) : TypeStats :=
  let b1 := { b with gene_ids := addGeneId b.gene_ids t.gene_id }
  let b1 := { b1 with length_list := b1.length_list ++ [t.length] }
  let b1 := { b1 with exon_length_list := b1.exon_length_list ++ t.exons_lengths }
  let b1 := { b1 with spliced_length_list := b1.spliced_length_list ++ [t.exon_len_sum] }
  let b2 := if t.cds_count > 0 then
      let c1 := { b1 with cds_length_list := b1.cds_length_list ++ t.cds_lengths }
      { c1 with protein_length_list := c1.protein_length_list ++ [t.cds_len_sum / 3] }
    else b1
  if t.exon_count > 1 then
    { b2 with intron_length_list := b2.intron_length_list ++ [t.length - t.exon_len_sum] }
  else b2

/-- Bucket key: category and transcript type. -/
abbrev BKey := Category × Option String

/-- Modelled from the spec (§4.5): one step of the transcript walk — look
up the gene's category, skip when there is none, otherwise push into the
bucket keyed by (category, transcript type). -/
def aggStep (cats : List (String × Option Category)) (buckets : List (BKey × TypeStats))
    (p : String × Transcript) : List (BKey × TypeStats) :=
  match dget cats p.2.gene_id with
  | some (some c) =>
    dset buckets (c, p.2.type)
      (pushTranscript p.2 ((dget buckets (c, p.2.type)).getD TypeStats.empty))
  | _ => buckets

/-- Modelled from the spec (§4.5): walk every transcript once, skip the
ones whose gene has no category, and push the rest into the bucket keyed by
(category, transcript type), buckets appearing in first-encounter order. -/
def aggregate (cats : List (String × Option Category))
    (transcripts : List (String × Transcript)) : List (BKey × TypeStats) :=
  transcripts.foldl (aggStep cats) []

/-- Length summary of §4.6, represented exactly: the mean is kept as the
(sum, count) pair and the median as its double, so no decimal rounding is
needed and equality of summaries coincides with equality of the rounded
Python values. -/
structure Summary where
  min : Int
  max : Int
  sum : Int
  count : Nat
  median2 : Int
  deriving Repr, DecidableEq

/-- Summarize a length list (`{0,0,0,0}` for an empty one; median is the
middle of the sorted list, or the mean of the two middles). -/
def summarize (l : List Int) : Summary :=
  match l with
  | [] => { min := 0, max := 0, sum := 0, count := 0, median2 := 0 }
  | _ =>
    let sorted := List.insertionSort (fun a b : Int => a ≤ b) l
    let n := l.length
    { min := sorted.headD 0, max := sorted.getLastD 0, sum := l.sum, count := n,
      median2 := if n % 2 == 1 then 2 * sorted.getD (n / 2) 0
        else sorted.getD (n / 2 - 1) 0 + sorted.getD (n / 2) 0 }

/-- One feature block (`exon` / `intron` / `cds`) of a type entry (§4.6). -/
structure FeatEntry where
  count : Nat
  length : Summary
  length_concatenated : Option Summary
  deriving Repr, DecidableEq

/-- One transcript-type entry of a category report (§4.6). -/
structure TypeEntry where
  count : Nat
  gene_count : Nat
  length : Summary
  exon : FeatEntry
  intron : Option FeatEntry
  cds : Option FeatEntry
  deriving Repr, DecidableEq

/-- Modelled from the spec (§4.6): build the report entry of one bucket.
`intron` is omitted when no multi-exon transcript exists and `cds` is
omitted when no transcript has CDS. -/
def buildTypeEntry (b : TypeStats) : TypeEntry :=
  { count := b.length_list.length,
    gene_count := b.gene_ids.length,
    length := summarize b.length_list,
    exon := { count := b.exon_length_list.length, length := summarize b.exon_length_list,
              length_concatenated := some (summarize b.spliced_length_list) },
    intron := if b.intron_length_list.isEmpty then none
      else some { count := b.intron_length_list.length,
                  length := summarize b.intron_length_list, length_concatenated := none },
    cds := if b.protein_length_list.isEmpty then none
      else some { count := b.cds_length_list.length, length := summarize b.cds_length_list,
                  length_concatenated := some (summarize b.protein_length_list) } }

/-- One category block of the final report (§4.6). -/
structure CategoryReport where
  count : Nat
  length : Summary
  types : List (Option String × TypeEntry)
  deriving Repr, DecidableEq

/-- The final report: one block per category; `none` models the `{}` the
Python code emits for an empty category. -/
structure Report where
  coding_genes : Option CategoryReport
  long_non_coding_genes : Option CategoryReport
  short_non_coding_genes : Option CategoryReport
  pseudogenes : Option CategoryReport
  deriving Repr, DecidableEq

/-- Gene lengths of one category, in root-table order. -/
def catGeneLengths (cats : List (String × Option Category)) (roots : List (String × Gene))
    (c : Category) : List Int :=
  roots.foldl (fun acc p => if dget cats p.1 == some (some c) then acc ++ [p.2.length] else acc) []

/-- The type entries of one category, in bucket insertion order. -/
def typesFor (buckets : List (BKey × TypeStats)) (c : Category) :
    List (Option String × TypeEntry) :=
  buckets.foldl (fun acc p => if p.1.1 == c then acc ++ [(p.1.2, buildTypeEntry p.2)] else acc) []

/-- Modelled from the spec (§4.6): one category block of the report. -/
def buildCategoryReport (cats : List (String × Option Category)) (roots : List (String × Gene))
    (buckets : List (BKey × TypeStats)) (c : Category) : Option CategoryReport :=
  let lens := catGeneLengths cats roots c
  if lens.isEmpty then none
  else some { count := lens.length, length := summarize lens, types := typesFor buckets c }

/-- Modelled from the spec (§4.5-§4.6): classify, aggregate and build the
final report from the finished tables. -/
def buildReport (s : Tables) : Report :=
  let cats := categorize_roots s.roots
  let buckets := aggregate cats s.transcripts
  { coding_genes := buildCategoryReport cats s.roots buckets Category.coding,
    long_non_coding_genes := buildCategoryReport cats s.roots buckets Category.long_non_coding,
    short_non_coding_genes := buildCategoryReport cats s.roots buckets Category.short_non_coding,
    pseudogenes := buildCategoryReport cats s.roots buckets Category.pseudogene }

/-- Equality of type-entry maps regardless of key insertion order. -/
def typesEqAsMaps (a b : List (Option String × TypeEntry)) : Bool :=
  a.all (fun p => dget b p.1 == some p.2) && b.all (fun p => dget a p.1 == some p.2)

/-- Equality of category blocks up to type-key insertion order. -/
def catReportEq (a b : Option CategoryReport) : Bool :=
  match a, b with
  | none, none => true
  | some x, some y => x.count == y.count && x.length == y.length && typesEqAsMaps x.types y.types
  | _, _ => false

/-- Report equality up to the insertion order of transcript-type keys. -/
def reportEqUpToTypeOrder (a b : Report) : Bool :=
  catReportEq a.coding_genes b.coding_genes &&
  catReportEq a.long_non_coding_genes b.long_non_coding_genes &&
  catReportEq a.short_non_coding_genes b.short_non_coding_genes &&
  catReportEq a.pseudogenes b.pseudogenes

/-- Python `str.split(sep)` for a single-character separator (no collapsing
of empty pieces, the empty string splits to one empty piece). -/
def splitCharAux (c : Char) : List Char → List Char → List (List Char)
  | [], cur => [cur.reverse]
  | a :: rest, cur =>
    if a == c then cur.reverse :: splitCharAux c rest [] else splitCharAux c rest (a :: cur)

/-- `splitCharAux` packaged on strings. -/
def splitChar (s : String) (c : Char) : List String :=
  (splitCharAux c s.toList []).map (fun l => String.mk l)

/-- Python `str.strip()`: remove leading and trailing whitespace. -/
def stripWs (s : String) : String :=
  String.mk (((s.toList.dropWhile Char.isWhitespace).reverse.dropWhile Char.isWhitespace).reverse)

/-- Python `str.strip(c)` for one character (used as `.strip("\n")`). -/
def stripChar (s : String) (c : Char) : String :=
  String.mk (((s.toList.dropWhile (· == c)).reverse.dropWhile (· == c)).reverse)

/-- Python `int(...)` on the decimal strings of the GFF columns (digits
with an optional sign; anything else raises `ValueError`, modelled `none`). -/
def pyInt (s : String) : Option Int :=
  let digits : List Char → Option Int := fun cs =>
    if cs.isEmpty || !(cs.all Char.isDigit) then none
    else some (cs.foldl (fun n ch => n * 10 + ((ch.toNat : Int) - 48)) 0)
  match s.toList with
  | '-' :: rest => (digits rest).map (fun n => -n)
  | '+' :: rest => digits rest
  | cs => digits cs

/-- The tuple returned by `parse_gff_line_fast` (helpers.py lines 165-183). -/
structure Parsed where
  feature_type : String
  length : Int
  parent_ids : List String
  biotype : Option String
  feature_id : Option String
  deriving Repr, DecidableEq

/-- State of the attribute-scanning loop of `parse_gff_line_fast`. -/
structure AttrAcc where
  parent_ids : List String
  biotype : Option String
  feature_id : Option String
  deriving Repr, DecidableEq

/-- One iteration of the `for attr in attr_str.split(";")` loop: the tuple
unpacking `key, value = attr.split("=")` raises `ValueError` unless the
pair holds exactly one `=`. -/
def parseAttr (acc : AttrAcc) (attr : String) : Except String AttrAcc :=
  match splitChar attr '=' with
  | [key, value] =>
    if key == "ID" then .ok { acc with feature_id := some (stripWs value) }
    else if key == "Parent" then
      .ok { acc with parent_ids := (splitChar value ',').map stripWs }
    else if key == "biotype" || key == "gene_biotype" || key == "transcript_biotype" then
      .ok { acc with biotype := some (stripWs value) }
    else .ok acc
  | _ => .error "ValueError: attribute pair without a single equals sign"

/-- `parse_gff_line_fast` (helpers.py lines 165-183) on the tab-split
columns; the errors model the exceptions the Python code raises. -/
def parse_gff_line_fast (cols : List String) : Except String Parsed :=
  match cols.get? 2, cols.get? 3, cols.get? 4, cols.get? 8 with
  | some c2, some c3, some c4, some c8 =>
    match pyInt c3, pyInt c4 with
    | some start, some stop =>
      let attrs := splitChar (stripChar c8 '\n') ';'
      match attrs.foldlM parseAttr (AttrAcc.mk [] none none) with
      | .ok acc => .ok (Parsed.mk c2 (stop - start + 1) acc.parent_ids acc.biotype acc.feature_id)
      | .error e => .error e
    | _, _ => .error "ValueError: invalid integer column"
  | _, _, _, _ => .error "IndexError"

/-- A deferred feature (`OrphanFeature` of classes.py, §3 of the spec). -/
structure Orphan where
  feature_id : Option String
  feature_type : String
  length : Int
  parent_ids : List String
  biotype : Option String
  deriving Repr, DecidableEq

/-- `SKIP_FEATURES` of compute_stats.py. -/
def SKIP_FEATURES : List String := ["region", "chromosome", "scaffold"]

/-- The per-line step of the streaming loop of `compute_gff_stats`: comment
and blank skipping, the nine-column requirement, the skip set, parsing,
`process_feature`, orphan collection.  A parse exception aborts the whole
stream, as in the enclosing Python `try`. -/
def processLine (st : Tables × List Orphan) (line : String) :
    Except String (Tables × List Orphan) :=
  if line == "" || line.toList.headD ' ' == '#' then .ok st
  else
    let stripped := stripWs line
    if stripped == "" then .ok st
    else
      let cols := splitChar stripped '\t'
      if cols.length < 9 then .ok st
      else if SKIP_FEATURES.contains (cols.getD 2 "") then .ok st
      else match parse_gff_line_fast cols with
        | .error e => .error e
        | .ok p =>
          let r := process_feature p.feature_id p.feature_type p.length p.parent_ids p.biotype st.1
          if !r.2 && !p.parent_ids.isEmpty then
            .ok (r.1, st.2 ++ [Orphan.mk p.feature_id p.feature_type p.length p.parent_ids p.biotype])
          else .ok (r.1, st.2)

/-- `resolve_orphans` (helpers.py lines 275-295): one pass over the orphan
list, keeping the entries that still do not resolve. -/
def resolve_orphans (orphans : List Orphan) (s : Tables) : List Orphan × Tables :=
  orphans.foldl (fun acc o =>
    let r := process_feature o.feature_id o.feature_type o.length o.parent_ids o.biotype acc.2
    if r.2 then (acc.1, r.1) else (acc.1 ++ [o], r.1)) ([], s)

/-- The fixed-point orphan loop of `compute_gff_stats`: at most
`max_iterations = 20` passes, stopping early when a pass makes no progress. -/
def resolveLoop : Nat → List Orphan → Tables → Tables
  | 0, _, s => s
  | fuel + 1, orphans, s =>
    if orphans.isEmpty then s
    else
      let r := resolve_orphans orphans s
      if r.1.length == orphans.length then r.2
      else resolveLoop fuel r.1 r.2

/-- The whole pipeline on the text rows of a GFF3 source: stream the rows,
resolve orphans, then classify, aggregate and build the report.  A raised
exception is caught at the top of `compute_gff_stats` and yields the empty
result, modelled `none`. -/
def gffReport (lines : List String) : Option Report :=
  match lines.foldlM processLine (Tables.empty, []) with
  | .error _ => none
  | .ok st => some (buildReport (resolveLoop 20 st.2 st.1))

/-- First-biased choice on options (used to express "the last resolved
parent so far"). -/
def optOr {α : Type} (a b : Option α) : Option α :=
  match a with
  | some x => some x
  | none => b

/-- The roots, in table order, that each parent id resolves to in state
`s` (the loop of `process_feature` reads them left to right). -/
def resolvedRoots (s : Tables) (parents : List String) : List String :=
  parents.filterMap (fun p => dget s.id_to_root p)

/-- The parent ids that resolve to themselves in state `s`, i.e. the
parents that are gene roots. -/
def resolvedGeneParents (s : Tables) (parents : List String) : List String :=
  parents.filter (fun p => dget s.id_to_root p == some p)

/-- Seed input (the shape of spec §8 scenario 1): one gene, one transcript,
two exons and one CDS, parents always before children. -/
def seedCalls : List Call :=
  [Call.mk (some "g1") "gene" 300 [] (some "protein_coding"),
   Call.mk (some "T") "mRNA" 300 ["g1"] none,
   Call.mk none "exon" 100 ["T"] none,
   Call.mk none "exon" 120 ["T"] none,
   Call.mk none "CDS" 90 ["T"] none]

/-- Two gene rows only (both roots reachable afterwards). -/
def c7geneRows : List Call :=
  [Call.mk (some "g1") "gene" 100 [] none, Call.mk (some "g2") "gene" 100 [] none]

/-- The two gene rows followed by one transcript row listing both genes as
parents, `g1` first. -/
def c7calls : List Call :=
  c7geneRows ++ [Call.mk (some "T") "mRNA" 60 ["g1", "g2"] none]

/-- A run in which transcript `T` first accumulates two exons under gene
`g1` and is then re-attached to gene `g2` by a later row with the same id. -/
def c6calls : List Call :=
  [Call.mk (some "g1") "gene" 100 [] none,
   Call.mk (some "g2") "gene" 100 [] none,
   Call.mk (some "T") "mRNA" 60 ["g1"] none,
   Call.mk none "exon" 10 ["T"] none,
   Call.mk none "exon" 10 ["T"] none,
   Call.mk (some "T") "mRNA" 60 ["g2"] none]

/-- Some transcript of gene `g` has at least two exons. -/
def HasBig (ts : List (String × Transcript)) (g : String) : Prop :=
  ∃ x t, dget ts x = some t ∧ t.gene_id = g ∧ 2 ≤ t.exon_count

/-- Invariant bundle for the `has_multiple_exons` analysis of runs whose
calls carry fresh feature ids: every `id_to_root` key was seen as a feature
id; `id_to_root` values are `roots` keys; `roots` and `transcripts` keys
appear in `id_to_root`; each transcript's `gene_id` is its own `id_to_root`
value; and each gene's `has_multiple_exons` flag agrees with the existence
of one of its transcripts having two exons. -/
def C6Inv (used : List String) (s : Tables) : Prop :=
  (∀ x, (dget s.id_to_root x).isSome = true → x ∈ used) ∧
  (∀ x r, dget s.id_to_root x = some r → (dget s.roots r).isSome = true) ∧
  (∀ g, (dget s.roots g).isSome = true → (dget s.id_to_root g).isSome = true) ∧
  (∀ x, (dget s.transcripts x).isSome = true → (dget s.id_to_root x).isSome = true) ∧
  (∀ x t, dget s.transcripts x = some t → dget s.id_to_root x = some t.gene_id) ∧
  (∀ g G, dget s.roots g = some G →
    (G.has_multiple_exons = true ↔ HasBig s.transcripts g))

/-- The end-state property asserted by the `has_multiple_exons` claim, as
a decidable check over finished tables: every gene's flag agrees with the
existence of a transcript of that gene having at least two exons. -/
def hmeClaimHolds (s : Tables) : Bool :=
  s.roots.all (fun rp =>
    rp.2.has_multiple_exons ==
      s.transcripts.any (fun tp => tp.2.gene_id == rp.1 && decide (2 ≤ tp.2.exon_count)))

/-- GFF3 text row: a coding gene. -/
def rowGene : String := "chr1\tsrc\tgene\t1\t300\t.\t+\t.\tID=g1;biotype=protein_coding"

/-- GFF3 text row: first mRNA of the gene. -/
def rowMrna1 : String := "chr1\tsrc\tmRNA\t1\t300\t.\t+\t.\tID=t1;Parent=g1"

/-- GFF3 text row: second mRNA of the gene. -/
def rowMrna2 : String := "chr1\tsrc\tmRNA\t1\t300\t.\t+\t.\tID=t2;Parent=g1"

/-- GFF3 text row: an exon shared by both mRNAs (a standard GFF3 idiom). -/
def rowSharedExon : String := "chr1\tsrc\texon\t1\t100\t.\t+\t.\tID=e1;Parent=t1,t2"

/-- Original row order: both transcript rows precede the shared exon. -/
def rowsOrig : List String := [rowGene, rowMrna1, rowMrna2, rowSharedExon]

/-- A permutation of `rowsOrig`: the shared exon arrives before the second
mRNA row. -/
def rowsPerm : List String := [rowGene, rowMrna1, rowSharedExon, rowMrna2]

/-- Equality of optional reports up to transcript-type key order. -/
def reportsEqUpToTypeOrder (a b : Option Report) : Bool :=
  match a, b with
  | none, none => true
  | some x, some y => reportEqUpToTypeOrder x y
  | _, _ => false

/-- A row whose attribute column holds a pair lacking an equals sign. -/
def rowMalformed : String := "chr1\tsrc\tgene\t500\t600\t.\t+\t.\tID=g9;malformed"

/-- A well-formed stream with the malformed row in the middle. -/
def c4lines : List String := [rowGene, rowMrna1, rowMalformed, rowMrna2]

/-- The same stream without the malformed row. -/
def c4goodLines : List String := [rowGene, rowMrna1, rowMrna2]

/-- A gene whose only transcript has CDS children but no exon children. -/
def c5lines : List String :=
  ["chr1\tsrc\tgene\t1\t300\t.\t+\t.\tID=g1",
   "chr1\tsrc\tmRNA\t1\t300\t.\t+\t.\tID=t1;Parent=g1",
   "chr1\tsrc\tCDS\t1\t150\t.\t+\t.\tID=c1;Parent=t1"]

/-- Feature ids of a nested chain: the gene `g`, then `x`, `xx`, `xxx`, …
(one more `x` per nesting level). -/
def deepName : Nat → String
  | 0 => "g"
  | k+1 => String.mk (List.replicate (k+1) 'x')

/-- GFF3 text row: the chain member at depth `k+1`, a single-parent mRNA
row whose parent is the chain member at depth `k`. -/
def deepChainRow (k : Nat) : String :=
  "chr1\tsrc\tmRNA\t1\t300\t.\t+\t.\tID=" ++ deepName (k+1) ++ ";Parent=" ++ deepName k

/-- GFF3 text row: the gene at the top of the chain. -/
def rowDeepGene : String := "chr1\tsrc\tgene\t1\t300\t.\t+\t.\tID=g"

/-- GFF3 text row: an exon under the deepest chain member (depth 21). -/
def rowDeepExon : String := "chr1\tsrc\texon\t1\t100\t.\t+\t.\tID=e;Parent=" ++ deepName 20

/-- A valid single-parent GFF3 stream, parents before children: one gene, a
20-deep chain of mRNA rows, and one exon under the deepest one.  In
child-before-parent order the exon needs 21 orphan passes, one more than the
loop's `max_iterations = 20`. -/
def rowsDeep : List String := (rowDeepGene :: (List.range 20).map deepChainRow) ++ [rowDeepExon]

/-- The same stream fully reversed: every child precedes its parent. -/
def rowsDeepRev : List String := rowsDeep.reverse

/-- Every row of the stream parses and lists at most one parent id. -/
def rowsSingleParent (lines : List String) : Bool :=
  lines.all (fun l => match parse_gff_line_fast (splitChar (stripWs l) '\t') with
    | .ok p => decide (p.parent_ids.length ≤ 1)
    | .error _ => false)

-- ### Theorems

theorem dget_dset_self {κ α : Type} [DecidableEq κ] (m : List (κ × α)) (k : κ) (v : α) :
    dget (dset m k v) k = some v := by
  induction m with
  | nil => simp [dset, dget]
  | cons p rest ih =>
    by_cases h : p.1 = k
    · simp [dset, dget, h]
    · simp [dset, dget, h, ih]

theorem dget_dset_ne {κ α : Type} [DecidableEq κ] (m : List (κ × α)) (k x : κ) (v : α)
    (h : x ≠ k) : dget (dset m k v) x = dget m x := by
  induction m with
  | nil => simp [dset, dget, Ne.symm h]
  | cons p rest ih =>
    by_cases hp : p.1 = k
    · simp [dset, dget, hp, Ne.symm h]
    · simp [dset, dget, hp, ih]

theorem dget_dmodify_self {κ α : Type} [DecidableEq κ] (m : List (κ × α)) (k : κ) (f : α → α) :
    dget (dmodify m k f) k = (dget m k).map f := by
  induction m with
  | nil => simp [dmodify, dget]
  | cons p rest ih =>
    by_cases h : p.1 = k
    · simp [dmodify, dget, h]
    · simp [dmodify, dget, h, ih]

theorem dget_dmodify_ne {κ α : Type} [DecidableEq κ] (m : List (κ × α)) (k x : κ) (f : α → α)
    (h : x ≠ k) : dget (dmodify m k f) x = dget m x := by
  induction m with
  | nil => simp [dmodify, dget]
  | cons p rest ih =>
    by_cases hp : p.1 = k
    · simp [dmodify, dget, hp, Ne.symm h]
    · simp [dmodify, dget, hp, ih]

theorem isSome_dget_dset {κ α : Type} [DecidableEq κ] (m : List (κ × α)) (k x : κ) (v : α)
    (h : (dget m x).isSome = true) : (dget (dset m k v) x).isSome = true := by
  by_cases hx : x = k
  · subst hx; simp [dget_dset_self]
  · rw [dget_dset_ne m k x v hx]; exact h

theorem isSome_dget_dmodify {κ α : Type} [DecidableEq κ] (m : List (κ × α)) (k x : κ)
    (f : α → α) (h : (dget m x).isSome = true) :
    (dget (dmodify m k f) x).isSome = true := by
  by_cases hx : x = k
  · subst hx; rw [dget_dmodify_self]; cases hm : dget m x
    · rw [hm] at h; cases h
    · simp
  · rw [dget_dmodify_ne m k x f hx]; exact h

theorem stepParent_keeps_true (fid : Option String) (fc : Nat) (ft : String) (len : Int)
    (acc : Tables × Bool) (pid : String) (h : acc.2 = true) :
    (stepParent fid fc ft len acc pid).2 = true := by
  unfold stepParent
  cases hd : dget acc.1.id_to_root pid <;> simp [hd, h]

theorem foldl_stepParent_keeps_true (fid : Option String) (fc : Nat) (ft : String) (len : Int)
    (ps : List String) (acc : Tables × Bool) (h : acc.2 = true) :
    (ps.foldl (stepParent fid fc ft len) acc).2 = true := by
  induction ps generalizing acc with
  | nil => simpa using h
  | cons p ps ih => exact ih _ (stepParent_keeps_true fid fc ft len acc p h)

theorem foldl_stepParent_false_fix (fid : Option String) (fc : Nat) (ft : String) (len : Int)
    (ps : List String) (acc : Tables × Bool)
    (h : (ps.foldl (stepParent fid fc ft len) acc).2 = false) :
    ps.foldl (stepParent fid fc ft len) acc = acc := by
  induction ps generalizing acc with
  | nil => rfl
  | cons p ps ih =>
    rw [List.foldl_cons] at h ⊢
    cases hd : dget acc.1.id_to_root p with
    | none =>
      have hstep : stepParent fid fc ft len acc p = acc := by
        unfold stepParent; rw [hd]
      rw [hstep] at h ⊢
      exact ih _ h
    | some r =>
      have htrue : (stepParent fid fc ft len acc p).2 = true := by
        unfold stepParent; rw [hd]
      have hall := foldl_stepParent_keeps_true fid fc ft len ps _ htrue
      rw [h] at hall
      cases hall

/-- Claim C9: whenever `process_feature` returns `False` the call leaves
`roots`, `id_to_root` and `transcripts` exactly unchanged — a feature none
of whose parent ids resolves, or a parentless feature without an id, has no
effect on any table (atomicity on failure). -/
theorem gffy_c9_false_leaves_tables_unchanged (fid : Option String) (ftype : String)
    (len : Int) (parents : List String) (biotype : Option String) (s : Tables)
    (h : (process_feature fid ftype len parents biotype s).2 = false) :
    (process_feature fid ftype len parents biotype s).1 = s := by
  unfold process_feature at h ⊢
  by_cases hc : (parents.isEmpty && strTruthy fid) = true
  · simp [hc] at h
  · simp only [hc, Bool.false_eq_true, if_false] at h ⊢
    exact congrArg Prod.fst (foldl_stepParent_false_fix fid (featCode ftype) ftype len parents (s, false) h)

/-- Witness for C9: an exon whose only parent is unknown is rejected and
the empty tables are untouched. -/
theorem gffy_c9_false_leaves_tables_unchanged_witness :
    (process_feature (some "x") "exon" 5 ["ghost"] none Tables.empty).1 = Tables.empty :=
  gffy_c9_false_leaves_tables_unchanged (some "x") "exon" 5 ["ghost"] none Tables.empty (by decide)

theorem dget_dmodify_isSome {κ α : Type} [DecidableEq κ] (m : List (κ × α)) (k : κ)
    (f : α → α) (r : κ) : (dget (dmodify m k f) r).isSome = (dget m r).isSome := by
  by_cases hx : r = k
  · subst hx; rw [dget_dmodify_self]; cases dget m r <;> rfl
  · rw [dget_dmodify_ne _ _ _ _ hx]

theorem coreRoots_dget_isSome (fcode : Nat) (roots : List (String × Gene))
    (ts : List (String × Transcript)) (pid rootId : String) (r : String) :
    (dget (coreRoots fcode roots ts pid rootId) r).isSome = (dget roots r).isSome := by
  unfold coreRoots
  repeat' split
  · rfl
  · simp only [dget_dmodify_isSome]
    split
    · simp only [dget_dmodify_isSome]
    · rfl
  · simp only [dget_dmodify_isSome]
  · rfl

theorem coreItr_dget (fid : Option String) (itr : List (String × String)) (rootId : String)
    (x : String) :
    dget (coreItr fid itr rootId) x = dget itr x ∨
      (∃ f, fid = some f ∧ x = f ∧ dget (coreItr fid itr rootId) x = some rootId) := by
  cases fid with
  | none => exact Or.inl rfl
  | some f =>
    by_cases hf : f = ""
    · subst hf; exact Or.inl (by simp [coreItr])
    · by_cases hx : x = f
      · refine Or.inr ⟨f, rfl, hx, ?_⟩
        simp only [coreItr]
        rw [if_neg (by simpa using hf), hx]
        exact dget_dset_self _ _ _
      · refine Or.inl ?_
        simp only [coreItr]
        rw [if_neg (by simpa using hf)]
        exact dget_dset_ne _ _ _ _ hx

theorem process_feature_preserves_root_cover (fid : Option String) (ftype : String)
    (len : Int) (parents : List String) (biotype : Option String) (s : Tables)
    (H : ∀ x r, dget s.id_to_root x = some r → (dget s.roots r).isSome = true) :
    ∀ x r, dget (process_feature fid ftype len parents biotype s).1.id_to_root x = some r →
      (dget (process_feature fid ftype len parents biotype s).1.roots r).isSome = true := by
  unfold process_feature
  by_cases hc : (parents.isEmpty && strTruthy fid) = true
  · simp only [hc, if_true]
    intro x r hx
    by_cases hxf : x = fid.getD ""
    · subst hxf
      rw [dget_dset_self] at hx
      cases hx
      rw [dget_dset_self]
      rfl
    · rw [dget_dset_ne _ _ _ _ hxf] at hx
      exact isSome_dget_dset _ _ _ _ (H _ _ hx)
  · simp only [hc, Bool.false_eq_true, if_false]
    have step : ∀ (acc : Tables × Bool) (pid : String),
        (∀ x r, dget acc.1.id_to_root x = some r → (dget acc.1.roots r).isSome = true) →
        (∀ x r, dget (stepParent fid (featCode ftype) ftype len acc pid).1.id_to_root x = some r →
          (dget (stepParent fid (featCode ftype) ftype len acc pid).1.roots r).isSome = true) := by
      intro acc pid Hacc x r hx
      cases hd : dget acc.1.id_to_root pid with
      | none =>
        have heq : stepParent fid (featCode ftype) ftype len acc pid = acc := by
          unfold stepParent; rw [hd]
        rw [heq] at hx ⊢
        exact Hacc x r hx
      | some rootId =>
        have heq : stepParent fid (featCode ftype) ftype len acc pid =
            (stepParentCore fid (featCode ftype) ftype len acc.1 pid rootId, true) := by
          unfold stepParent; rw [hd]
        rw [heq] at hx ⊢
        simp only [stepParentCore] at hx ⊢
        rw [coreRoots_dget_isSome]
        rcases coreItr_dget fid acc.1.id_to_root rootId x with hsame | ⟨f, _, _, hval⟩
        · rw [hsame] at hx; exact Hacc x r hx
        · rw [hval] at hx
          cases hx
          exact Hacc pid r hd
    have main : ∀ (ps : List String) (acc : Tables × Bool),
        (∀ x r, dget acc.1.id_to_root x = some r → (dget acc.1.roots r).isSome = true) →
        (∀ x r, dget (ps.foldl (stepParent fid (featCode ftype) ftype len) acc).1.id_to_root x = some r →
          (dget (ps.foldl (stepParent fid (featCode ftype) ftype len) acc).1.roots r).isSome = true) := by
      intro ps
      induction ps with
      | nil => intro acc Hacc; exact Hacc
      | cons p ps ih => intro acc Hacc; exact ih _ (step acc p Hacc)
    exact main parents (s, false) H

/-- Claim C10: starting from empty tables, after any sequence of
`process_feature` calls every value stored in `id_to_root` is a key of
`roots`; consequently the `roots` lookup performed with a resolved root id
in the exon and CDS branches never yields `None`, and the writes to
`has_exon`, `has_cds` and `has_multiple_exons` never dereference a missing
gene. -/
theorem gffy_c10_id_to_root_values_are_root_keys (calls : List Call) :
    ∀ x r, dget (runCalls calls).id_to_root x = some r →
      (dget (runCalls calls).roots r).isSome = true := by
  suffices h : ∀ (cs : List Call) (s : Tables),
      (∀ x r, dget s.id_to_root x = some r → (dget s.roots r).isSome = true) →
      (∀ x r, dget (cs.foldl (fun s c => (process_feature c.fid c.ftype c.len c.parents c.biotype s).1) s).id_to_root x = some r →
        (dget (cs.foldl (fun s c => (process_feature c.fid c.ftype c.len c.parents c.biotype s).1) s).roots r).isSome = true) by
    exact h calls Tables.empty (by intro x r hx; cases hx)
  intro cs
  induction cs with
  | nil => intro s H; exact H
  | cons c cs ih =>
    intro s H
    exact ih _ (process_feature_preserves_root_cover c.fid c.ftype c.len c.parents c.biotype s H)

/-- Witness for C10: in the seed run, `id_to_root` maps `T` to `g1` and
`g1` is indeed a key of `roots`. -/
theorem gffy_c10_id_to_root_values_are_root_keys_witness :
    (dget (runCalls seedCalls).roots "g1").isSome = true :=
  gffy_c10_id_to_root_values_are_root_keys seedCalls "T" "g1" (by decide)

theorem wf_dset (ts : List (String × Transcript)) (k : String) (v : Transcript)
    (H : ∀ x t, dget ts x = some t → TWellformed t) (hv : TWellformed v) :
    ∀ x t, dget (dset ts k v) x = some t → TWellformed t := by
  intro x t hx
  by_cases hk : x = k
  · subst hk; rw [dget_dset_self] at hx; cases hx; exact hv
  · rw [dget_dset_ne _ _ _ _ hk] at hx; exact H _ _ hx

theorem wf_retarget (t : Transcript) (rootId : String) (ftype : String) (len : Int)
    (h : TWellformed t) :
    TWellformed { t with gene_id := rootId, type := some ftype, length := len } := h

theorem wf_exon_update (t : Transcript) (len : Int) (h : TWellformed t) :
    TWellformed { t with exon_count := t.exon_count + 1, exons_lengths := t.exons_lengths ++ [len], exon_len_sum := t.exon_len_sum + len } := by
  obtain ⟨h1, h2, h3, h4⟩ := h
  exact ⟨by simp [h1], h2, by simp [h3], h4⟩

theorem wf_cds_update (t : Transcript) (len : Int) (h : TWellformed t) :
    TWellformed { t with cds_count := t.cds_count + 1, cds_len_sum := t.cds_len_sum + len, cds_lengths := t.cds_lengths ++ [len] } := by
  obtain ⟨h1, h2, h3, h4⟩ := h
  exact ⟨h1, by simp [h2], h3, by simp [h4]⟩

theorem coreLazyT_wf (ts : List (String × Transcript)) (pid rootId : String)
    (H : ∀ x t, dget ts x = some t → TWellformed t) :
    TWellformed (coreLazyT ts pid rootId) := by
  unfold coreLazyT
  cases hd : dget ts pid with
  | some t => exact H _ _ hd
  | none => exact ⟨rfl, rfl, rfl, rfl⟩

theorem coreTs_preserves_wf (fid : Option String) (fcode : Nat) (ftype : String) (len : Int)
    (ts : List (String × Transcript)) (pid rootId : String)
    (H : ∀ x t, dget ts x = some t → TWellformed t) :
    ∀ x t, dget (coreTs fid fcode ftype len ts pid rootId) x = some t → TWellformed t := by
  intro x t hx
  unfold coreTs at hx
  split at hx
  · -- Parent Case 1
    split at hx
    · -- fid = some f
      split at hx
      · exact H _ _ hx
      · split at hx
        · exact wf_dset _ _ _ H ⟨rfl, rfl, rfl, rfl⟩ _ _ hx
        · next heq =>
            exact wf_dset _ _ _ H (wf_retarget _ _ _ _ (H _ _ heq)) _ _ hx
    · exact H _ _ hx
  · -- Parent Case 2
    split at hx
    · exact wf_dset _ _ _ H (wf_exon_update _ _ (coreLazyT_wf ts pid rootId H)) _ _ (by exact hx)
    · split at hx
      · exact wf_dset _ _ _ H (wf_cds_update _ _ (coreLazyT_wf ts pid rootId H)) _ _ (by exact hx)
      · split at hx
        · exact H _ _ hx
        · exact wf_dset _ _ _ H (coreLazyT_wf ts pid rootId H) _ _ hx

theorem process_feature_preserves_wf (fid : Option String) (ftype : String) (len : Int)
    (parents : List String) (biotype : Option String) (s : Tables)
    (H : ∀ x t, dget s.transcripts x = some t → TWellformed t) :
    ∀ x t, dget (process_feature fid ftype len parents biotype s).1.transcripts x = some t →
      TWellformed t := by
  unfold process_feature
  by_cases hc : (parents.isEmpty && strTruthy fid) = true
  · simp only [hc, if_true]
    exact H
  · simp only [hc, Bool.false_eq_true, if_false]
    have step : ∀ (acc : Tables × Bool) (pid : String),
        (∀ x t, dget acc.1.transcripts x = some t → TWellformed t) →
        (∀ x t, dget (stepParent fid (featCode ftype) ftype len acc pid).1.transcripts x = some t →
          TWellformed t) := by
      intro acc pid Hacc
      cases hd : dget acc.1.id_to_root pid with
      | none =>
        have heq : stepParent fid (featCode ftype) ftype len acc pid = acc := by
          unfold stepParent; rw [hd]
        rw [heq]
        exact Hacc
      | some rootId =>
        have heq : stepParent fid (featCode ftype) ftype len acc pid =
            (stepParentCore fid (featCode ftype) ftype len acc.1 pid rootId, true) := by
          unfold stepParent; rw [hd]
        rw [heq]
        exact coreTs_preserves_wf fid (featCode ftype) ftype len acc.1.transcripts pid rootId Hacc
    have main : ∀ (ps : List String) (acc : Tables × Bool),
        (∀ x t, dget acc.1.transcripts x = some t → TWellformed t) →
        (∀ x t, dget (ps.foldl (stepParent fid (featCode ftype) ftype len) acc).1.transcripts x = some t →
          TWellformed t) := by
      intro ps
      induction ps with
      | nil => intro acc Hacc; exact Hacc
      | cons p ps ih => intro acc Hacc; exact ih _ (step acc p Hacc)
    exact main parents (s, false) H

/-- Claim C8: after any sequence of `process_feature` calls starting from
empty tables, every transcript satisfies
`len(exons_lengths) == exon_count`, `len(cds_lengths) == cds_count`,
`sum(exons_lengths) == exon_len_sum` and `sum(cds_lengths) == cds_len_sum`. -/
theorem gffy_c8_transcript_accumulators_consistent (calls : List Call) :
    ∀ x t, dget (runCalls calls).transcripts x = some t → TWellformed t := by
  suffices h : ∀ (cs : List Call) (s : Tables),
      (∀ x t, dget s.transcripts x = some t → TWellformed t) →
      (∀ x t, dget (cs.foldl (fun s c => (process_feature c.fid c.ftype c.len c.parents c.biotype s).1) s).transcripts x = some t →
        TWellformed t) by
    exact h calls Tables.empty (by intro x t hx; cases hx)
  intro cs
  induction cs with
  | nil => intro s H; exact H
  | cons c cs ih =>
    intro s H
    exact ih _ (process_feature_preserves_wf c.fid c.ftype c.len c.parents c.biotype s H)

/-- Witness for C8: the transcript of the seed run with two exons and one
CDS satisfies all four bookkeeping equations. -/
theorem gffy_c8_transcript_accumulators_consistent_witness :
    ∃ t, dget (runCalls seedCalls).transcripts "T" = some t ∧ TWellformed t :=
  ⟨_, rfl, gffy_c8_transcript_accumulators_consistent seedCalls "T" _ rfl⟩

/-- Claim C1: for every gene present at stream end the classifier assigns
exactly the category described by the specified decision tree
(`specCategory`): `pseudogene` by feature type, else `coding` on `has_cds`
or a biotype containing `protein_coding`, else by `has_exon` and the
length-or-multi-exon test, else no category. -/
theorem gffy_c1_classifier_matches_spec (roots : List (String × Gene)) (rid : String)
    (g : Gene) (h : dget roots rid = some g) :
    dget (categorize_roots roots) rid = some (specCategory g) := by
  induction roots with
  | nil => cases h
  | cons p rest ih =>
    by_cases hp : p.1 = rid
    · have hg : p.2 = g := by
        simp only [dget, if_pos hp] at h
        exact Option.some.inj h
      subst hg
      simp only [categorize_roots, List.map_cons, dget, if_pos hp]
      rfl
    · have h' : dget rest rid = some g := by
        simp only [dget, if_neg hp] at h
        exact h
      simp only [categorize_roots, List.map_cons, dget, if_neg hp]
      exact ih h'

/-- Witness for C1: a gene whose biotype is `protein_coding` and whose
flags are all unset is classified `coding`. -/
theorem gffy_c1_classifier_matches_spec_witness :
    dget (categorize_roots [("g", Gene.init "gene" (some "protein_coding") 300)]) "g" =
      some (some Category.coding) :=
  (gffy_c1_classifier_matches_spec [("g", Gene.init "gene" (some "protein_coding") 300)] "g"
    (Gene.init "gene" (some "protein_coding") 300) (by decide)).trans (by decide)

/-- Counterexample to C7 as stated: transcript `T` lists parents
`["g1", "g2"]` and both already resolve to gene roots, so the first
reachable root is `g1`; yet after the call both `id_to_root["T"]` and the
transcript's `gene_id` hold `g2` — the last resolved parent wins, not the
first. -/
theorem gffy_c7_counterexample :
    dget (runCalls c7geneRows).id_to_root "g1" = some "g1" ∧
    dget (runCalls c7geneRows).id_to_root "g2" = some "g2" ∧
    dget (runCalls c7calls).id_to_root "T" = some "g2" ∧
    (dget (runCalls c7calls).transcripts "T").map Transcript.gene_id = some "g2" ∧
    "g2" ≠ "g1" := by decide

/-- Counterexample to C6 as stated: in the run `c6calls`, gene `g1` keeps
`has_multiple_exons = true` after its only multi-exon transcript has been
re-attached to `g2`, so the claimed end-state equivalence fails (in both
directions: `g2` owns a two-exon transcript but its flag is false). -/
theorem gffy_c6_counterexample :
    hmeClaimHolds (runCalls c6calls) = false ∧
    (dget (runCalls c6calls).roots "g1").map Gene.has_multiple_exons = some true ∧
    (runCalls c6calls).transcripts.all
      (fun tp => !(tp.2.gene_id == "g1" && decide (2 ≤ tp.2.exon_count))) = true ∧
    (dget (runCalls c6calls).roots "g2").map Gene.has_multiple_exons = some false ∧
    (dget (runCalls c6calls).transcripts "T").map
      (fun t => (t.gene_id, t.exon_count)) = some ("g2", 2) := by decide

/-- Claim C5: for a gene whose only transcript has CDS children but no
exon children, the report places the gene in the coding category, the
transcript's bucket holds a `cds` feature entry, and the `intron` entry is
omitted. -/
theorem gffy_c5_cds_only_transcript_is_coding :
    ((gffReport c5lines).bind Report.coding_genes).map CategoryReport.count = some 1 ∧
    ((gffReport c5lines).bind Report.coding_genes).map
      (fun cr => (dget cr.types (some "mRNA")).map (fun te => (te.cds.isSome, te.intron.isSome))) =
      some (some (true, false)) := by decide

/-- Behaviour at C4's failing input: the attribute pair `malformed` (no
equals sign) raises inside `parse_gff_line_fast`, the exception propagates
out of the row loop, and `compute_gff_stats` returns the empty result —
the statistics accumulated from the surrounding well-formed rows are
discarded rather than the row being skipped under a diagnostic counter. -/
theorem gffy_c4_malformed_attribute_aborts_stream :
    (parse_gff_line_fast (splitChar rowMalformed '\t')).toOption = none ∧
    gffReport c4lines = none ∧
    (gffReport c4goodLines).isSome = true := by decide

/-- Counterexample to C3 as stated: `rowsPerm` is a permutation of the
valid GFF3 `rowsOrig` (an exon shared by two mRNAs), yet the two reports
differ beyond transcript-type key order — when the shared exon row arrives
before the second mRNA row, the exon is attributed only to the first mRNA
and the exon count and spliced lengths of the bucket change. -/
theorem gffy_c3_counterexample :
    rowsPerm.Perm rowsOrig ∧
    reportsEqUpToTypeOrder (gffReport rowsOrig) (gffReport rowsPerm) = false := by decide

theorem pushTranscript_intron (t : Transcript) (b : TypeStats) :
    (pushTranscript t b).intron_length_list =
      b.intron_length_list ++ (if 1 < t.exon_count then [t.length - t.exon_len_sum] else []) := by
  unfold pushTranscript
  by_cases h1 : t.exon_count > 1 <;> by_cases h2 : t.cds_count > 0 <;> simp [h1, h2]

theorem aggStep_skip (cats : List (String × Option Category))
    (B : List (BKey × TypeStats)) (p : String × Transcript)
    (hc : ∀ c, dget cats p.2.gene_id ≠ some (some c)) : aggStep cats B p = B := by
  unfold aggStep
  cases hd : dget cats p.2.gene_id with
  | none => rfl
  | some oc =>
    cases oc with
    | none => rfl
    | some c => exact absurd hd (hc c)

theorem aggStep_push (cats : List (String × Option Category))
    (B : List (BKey × TypeStats)) (p : String × Transcript) (c : Category)
    (hc : dget cats p.2.gene_id = some (some c)) :
    aggStep cats B p =
      dset B (c, p.2.type) (pushTranscript p.2 ((dget B (c, p.2.type)).getD TypeStats.empty)) := by
  unfold aggStep
  rw [hc]

theorem aggregate_intron_go (cats : List (String × Option Category)) (k : BKey) :
    ∀ (ts : List (String × Transcript)) (B : List (BKey × TypeStats)),
    ((dget (ts.foldl (aggStep cats) B) k).getD TypeStats.empty).intron_length_list =
      ((dget B k).getD TypeStats.empty).intron_length_list ++
        (ts.filter (fun p => decide (dget cats p.2.gene_id = some (some k.1)) &&
          (p.2.type == k.2) && decide (1 < p.2.exon_count))).map
          (fun p => p.2.length - p.2.exon_len_sum) := by
  intro ts
  induction ts with
  | nil => intro B; simp
  | cons p rest ih =>
    intro B
    rw [List.foldl_cons, List.filter_cons]
    cases hc : dget cats p.2.gene_id with
    | none =>
      rw [aggStep_skip cats B p (by simp [hc]), ih B]
      simp
    | some oc =>
      cases oc with
      | none =>
        rw [aggStep_skip cats B p (by simp [hc]), ih B]
        simp
      | some c =>
        rw [aggStep_push cats B p c hc, ih]
        by_cases hk : k = (c, p.2.type)
        · rw [hk, dget_dset_self]
          simp only [Option.getD_some]
          rw [pushTranscript_intron]
          by_cases hcnt : 1 < p.2.exon_count
          · simp [hcnt, List.append_assoc]
          · simp [hcnt]
        · rw [dget_dset_ne _ _ _ _ hk]
          by_cases h1 : c = k.1
          · by_cases h2 : p.2.type = k.2
            · exact absurd (Prod.ext h1.symm h2.symm) hk
            · simp [h2]
          · simp [h1]

/-- Claim C2: in the per-category aggregation pass, every multi-exon
transcript whose gene has a category contributes exactly one value to the
intron-length list of its (category, type) bucket, equal to
`transcript.length − exon_len_sum`; no per-intron gap values are pushed.
Stated as an exact characterization of every bucket's intron list. -/
theorem gffy_c2_intron_single_aggregate (cats : List (String × Option Category))
    (ts : List (String × Transcript)) (k : BKey) :
    ((dget (aggregate cats ts) k).getD TypeStats.empty).intron_length_list =
      (ts.filter (fun p => decide (dget cats p.2.gene_id = some (some k.1)) &&
        (p.2.type == k.2) && decide (1 < p.2.exon_count))).map
        (fun p => p.2.length - p.2.exon_len_sum) := by
  have h := aggregate_intron_go cats k ts []
  simpa using h

theorem optOr_absorb {α : Type} (a : Option α) (x : α) (c : Option α) :
    optOr (optOr a (some x)) c = optOr a (some x) := by
  cases a <;> rfl

theorem getLast?_cons_optOr {α : Type} (a : α) (l : List α) :
    (a :: l).getLast? = optOr l.getLast? (some a) := by
  induction l generalizing a with
  | nil => rfl
  | cons b t ih => rw [List.getLast?_cons_cons, ih b, optOr_absorb]

theorem resolvedRoots_cons_none (s : Tables) (p : String) (ps : List String)
    (hs : dget s.id_to_root p = none) : resolvedRoots s (p :: ps) = resolvedRoots s ps := by
  simp [resolvedRoots, hs]

theorem resolvedRoots_cons_some (s : Tables) (p : String) (ps : List String) (r : String)
    (hs : dget s.id_to_root p = some r) :
    resolvedRoots s (p :: ps) = r :: resolvedRoots s ps := by
  simp [resolvedRoots, hs]

theorem resolvedGeneParents_cons_self (s : Tables) (p : String) (ps : List String)
    (hs : dget s.id_to_root p = some p) :
    resolvedGeneParents s (p :: ps) = p :: resolvedGeneParents s ps := by
  simp [resolvedGeneParents, List.filter_cons, hs]

theorem resolvedGeneParents_cons_other (s : Tables) (p : String) (ps : List String)
    (hs : ¬dget s.id_to_root p = some p) :
    resolvedGeneParents s (p :: ps) = resolvedGeneParents s ps := by
  simp [resolvedGeneParents, List.filter_cons, hs]

theorem stepParentCore_transcripts (fid : Option String) (fc : Nat) (ft : String) (len : Int)
    (s0 : Tables) (pid rootId : String) :
    (stepParentCore fid fc ft len s0 pid rootId).transcripts =
      coreTs fid fc ft len s0.transcripts pid rootId := rfl

theorem stepParentCore_id_to_root (fid : Option String) (fc : Nat) (ft : String) (len : Int)
    (s0 : Tables) (pid rootId : String) :
    (stepParentCore fid fc ft len s0 pid rootId).id_to_root =
      coreItr fid s0.id_to_root rootId := rfl

theorem coreItr_some_ne (f : String) (itr : List (String × String)) (rootId : String)
    (hf : f ≠ "") : coreItr (some f) itr rootId = dset itr f rootId := by
  simp only [coreItr]
  rw [if_neg (by simpa using hf)]

theorem coreTs_gene_parent (f ft : String) (len : Int) (ts : List (String × Transcript))
    (rootId : String) (hf : f ≠ "") :
    ∃ t, dget (coreTs (some f) 0 ft len ts rootId rootId) f = some t ∧
      t.gene_id = rootId ∧ t.type = some ft ∧ t.length = len := by
  unfold coreTs
  cases hg : dget ts f with
  | none =>
    simp only [hg, beq_self_eq_true, if_true]
    rw [if_neg (by simp [hf])]
    exact ⟨_, dget_dset_self _ _ _, rfl, rfl, rfl⟩
  | some t0 =>
    simp only [hg, beq_self_eq_true, if_true]
    rw [if_neg (by simp [hf])]
    exact ⟨_, dget_dset_self _ _ _, rfl, rfl, rfl⟩

theorem coreTs_other_key (fid : Option String) (fc : Nat) (ft : String) (len : Int)
    (ts : List (String × Transcript)) (pid rootId : String) (x : String)
    (hpr : ¬pid = rootId) (hx : x ≠ pid) :
    dget (coreTs fid fc ft len ts pid rootId) x = dget ts x := by
  unfold coreTs
  rw [if_neg (by simpa using hpr)]
  by_cases h1 : fc = 1
  · simp only [h1, beq_self_eq_true, if_true]
    exact dget_dset_ne _ _ _ _ hx
  · rw [if_neg (by simpa using h1)]
    by_cases h2 : fc = 2
    · simp only [h2, beq_self_eq_true, if_true]
      exact dget_dset_ne _ _ _ _ hx
    · rw [if_neg (by simpa using h2)]
      cases hp : dget ts pid with
      | some t => rfl
      | none => exact dget_dset_ne _ _ _ _ hx

theorem c7_loop (fc : Nat) (ft : String) (len : Int) (s : Tables) (f : String)
    (hf : f ≠ "") :
    ∀ (ps : List String), f ∉ ps → ∀ (acc : Tables × Bool) (lastR lastG : Option String),
    (∀ x, x ≠ f → dget acc.1.id_to_root x = dget s.id_to_root x) →
    dget acc.1.id_to_root f = optOr lastR (dget s.id_to_root f) →
    (match lastG with
     | some p => fc = 0 → ∃ t, dget acc.1.transcripts f = some t ∧
         t.gene_id = p ∧ t.type = some ft ∧ t.length = len
     | none => dget acc.1.transcripts f = dget s.transcripts f) →
    (∀ x, x ≠ f → dget (ps.foldl (stepParent (some f) fc ft len) acc).1.id_to_root x =
      dget s.id_to_root x) ∧
    dget (ps.foldl (stepParent (some f) fc ft len) acc).1.id_to_root f =
      optOr (optOr (resolvedRoots s ps).getLast? lastR) (dget s.id_to_root f) ∧
    (match optOr (resolvedGeneParents s ps).getLast? lastG with
     | some p => fc = 0 → ∃ t,
         dget (ps.foldl (stepParent (some f) fc ft len) acc).1.transcripts f = some t ∧
         t.gene_id = p ∧ t.type = some ft ∧ t.length = len
     | none => dget (ps.foldl (stepParent (some f) fc ft len) acc).1.transcripts f =
         dget s.transcripts f) := by
  intro ps
  induction ps with
  | nil =>
    intro _ acc lastR lastG h1 h2 h3
    exact ⟨h1, h2, h3⟩
  | cons p rest ih =>
    intro hmem acc lastR lastG h1 h2 h3
    have hpf : p ≠ f := fun he => hmem (he ▸ List.mem_cons_self p rest)
    have hrest : f ∉ rest := fun hr => hmem (List.mem_cons_of_mem p hr)
    have hpacc : dget acc.1.id_to_root p = dget s.id_to_root p := h1 p hpf
    rw [List.foldl_cons]
    cases hs : dget s.id_to_root p with
    | none =>
      have hstep : stepParent (some f) fc ft len acc p = acc := by
        unfold stepParent
        rw [hpacc, hs]
      rw [hstep, resolvedRoots_cons_none s p rest hs,
        resolvedGeneParents_cons_other s p rest (by rw [hs]; exact fun h => Option.noConfusion h)]
      exact ih hrest acc lastR lastG h1 h2 h3
    | some rootId =>
      have hstep : stepParent (some f) fc ft len acc p =
          (stepParentCore (some f) fc ft len acc.1 p rootId, true) := by
        unfold stepParent
        rw [hpacc, hs]
      rw [hstep, resolvedRoots_cons_some s p rest rootId hs]
      have hitr : (stepParentCore (some f) fc ft len acc.1 p rootId).id_to_root =
          dset acc.1.id_to_root f rootId := by
        rw [stepParentCore_id_to_root, coreItr_some_ne f _ rootId hf]
      have h1' : ∀ x, x ≠ f →
          dget (stepParentCore (some f) fc ft len acc.1 p rootId, true).1.id_to_root x =
            dget s.id_to_root x := by
        intro x hx
        rw [hitr]
        rw [dget_dset_ne _ _ _ _ hx]
        exact h1 x hx
      have h2' : dget (stepParentCore (some f) fc ft len acc.1 p rootId, true).1.id_to_root f =
          optOr (some rootId) (dget s.id_to_root f) := by
        rw [hitr]
        exact dget_dset_self _ _ _
      by_cases hpr : p = rootId
      · -- the parent is a gene root
        have h3' : (match (some p : Option String) with
            | some q => fc = 0 → ∃ t,
                dget (stepParentCore (some f) fc ft len acc.1 p rootId, true).1.transcripts f = some t ∧
                t.gene_id = q ∧ t.type = some ft ∧ t.length = len
            | none => dget (stepParentCore (some f) fc ft len acc.1 p rootId, true).1.transcripts f =
                dget s.transcripts f) := by
          intro hfc
          subst hfc
          rw [stepParentCore_transcripts, hpr]
          exact coreTs_gene_parent f ft len acc.1.transcripts rootId hf
        have hrec := ih hrest _ (some rootId) (some p) h1' h2' h3'
        rw [resolvedGeneParents_cons_self s p rest (by rw [hs, hpr])]
        refine ⟨hrec.1, ?_, ?_⟩
        · rw [getLast?_cons_optOr, optOr_absorb]
          exact hrec.2.1
        · rw [getLast?_cons_optOr, optOr_absorb]
          exact hrec.2.2
      · -- the parent is a transcript
        have hts : dget (stepParentCore (some f) fc ft len acc.1 p rootId, true).1.transcripts f =
            dget acc.1.transcripts f := by
          rw [stepParentCore_transcripts]
          exact coreTs_other_key (some f) fc ft len acc.1.transcripts p rootId f hpr (Ne.symm hpf)
        rw [resolvedGeneParents_cons_other s p rest (by rw [hs]; intro h; exact hpr (Option.some.inj h).symm)]
        cases lastG with
        | some q =>
          have h3' : (match (some q : Option String) with
              | some q' => fc = 0 → ∃ t,
                  dget (stepParentCore (some f) fc ft len acc.1 p rootId, true).1.transcripts f = some t ∧
                  t.gene_id = q' ∧ t.type = some ft ∧ t.length = len
              | none => dget (stepParentCore (some f) fc ft len acc.1 p rootId, true).1.transcripts f =
                  dget s.transcripts f) := by
            intro hfc
            obtain ⟨t, ht, rest'⟩ := h3 hfc
            exact ⟨t, hts.trans ht, rest'⟩
          have hrec := ih hrest _ (some rootId) (some q) h1' h2' h3'
          refine ⟨hrec.1, ?_, hrec.2.2⟩
          rw [getLast?_cons_optOr, optOr_absorb]
          exact hrec.2.1
        | none =>
          have h3' : (match (none : Option String) with
              | some q' => fc = 0 → ∃ t,
                  dget (stepParentCore (some f) fc ft len acc.1 p rootId, true).1.transcripts f = some t ∧
                  t.gene_id = q' ∧ t.type = some ft ∧ t.length = len
              | none => dget (stepParentCore (some f) fc ft len acc.1 p rootId, true).1.transcripts f =
                  dget s.transcripts f) := hts.trans h3
          have hrec := ih hrest _ (some rootId) none h1' h2' h3'
          refine ⟨hrec.1, ?_, hrec.2.2⟩
          rw [getLast?_cons_optOr, optOr_absorb]
          exact hrec.2.1

/-- Amended C7: when a feature with an id lists several parent identifiers
(none equal to its own id), it is the LAST parent that resolves — not the
first — that determines the feature's `id_to_root` entry, and the last
resolved gene parent that determines the created transcript's `gene_id`,
`type` and `length`; every resolved parent is visited, the later writes
overwriting the earlier ones. -/
theorem gffy_c7_last_resolved_parent_wins (f ftype : String) (len : Int)
    (parents : List String) (biotype : Option String) (s : Tables)
    (hf : f ≠ "") (hnp : f ∉ parents) :
    (∀ r, (resolvedRoots s parents).getLast? = some r →
      dget (process_feature (some f) ftype len parents biotype s).1.id_to_root f = some r) ∧
    (featCode ftype = 0 →
      ∀ p, (resolvedGeneParents s parents).getLast? = some p →
      ∃ t, dget (process_feature (some f) ftype len parents biotype s).1.transcripts f = some t ∧
        t.gene_id = p ∧ t.type = some ftype ∧ t.length = len) := by
  cases parents with
  | nil =>
    constructor
    · intro r hr; cases hr
    · intro _ p hp; cases hp
  | cons q qs =>
    have hne : ((q :: qs).isEmpty && strTruthy (some f)) = false := rfl
    have hpf : process_feature (some f) ftype len (q :: qs) biotype s =
        (q :: qs).foldl (stepParent (some f) (featCode ftype) ftype len) (s, false) := by
      unfold process_feature
      rw [hne]
      rfl
    have hloop := c7_loop (featCode ftype) ftype len s f hf (q :: qs) hnp (s, false)
      none none (fun _ _ => rfl) rfl rfl
    obtain ⟨_, hB, hC⟩ := hloop
    constructor
    · intro r hr
      rw [hpf]
      rw [hr] at hB
      exact hB
    · intro hfc p hp
      rw [hpf]
      rw [hp] at hC
      exact hC hfc

/-- Witness for the amended C7: with both `g1` and `g2` reachable and a
transcript row listing `["g1", "g2"]`, the last resolved root `g2` ends up
in `id_to_root["T"]`. -/
theorem gffy_c7_last_resolved_parent_wins_witness :
    dget (process_feature (some "T") "mRNA" 60 ["g1", "g2"] none (runCalls c7geneRows)).1.id_to_root "T" = some "g2" :=
  (gffy_c7_last_resolved_parent_wins "T" "mRNA" 60 ["g1", "g2"] none (runCalls c7geneRows)
    (by decide) (by decide)).1 "g2" (by decide)

theorem dget_dset {κ α : Type} [DecidableEq κ] (m : List (κ × α)) (k : κ) (v : α) (x : κ) :
    dget (dset m k v) x = if x = k then some v else dget m x := by
  by_cases hx : x = k
  · subst hx; rw [if_pos rfl]; exact dget_dset_self m x v
  · rw [if_neg hx]; exact dget_dset_ne m k x v hx

theorem coreItr_falsy (fid : Option String) (itr : List (String × String)) (rootId : String)
    (hfid : strTruthy fid = false) : coreItr fid itr rootId = itr := by
  cases fid with
  | none => rfl
  | some f =>
    have hf : f = "" := by
      by_cases hf : f = ""
      · exact hf
      · exfalso
        have : strTruthy (some f) = true := by simp [strTruthy, hf]
        rw [this] at hfid
        cases hfid
    subst hf
    simp [coreItr]

theorem coreItr_isSome_mono (fid : Option String) (itr : List (String × String))
    (rootId : String) (x : String) (h : (dget itr x).isSome = true) :
    (dget (coreItr fid itr rootId) x).isSome = true := by
  cases fid with
  | none => exact h
  | some f =>
    by_cases hf : f = ""
    · subst hf; simpa [coreItr] using h
    · rw [coreItr_some_ne f itr rootId hf]
      exact isSome_dget_dset _ _ _ _ h

theorem coreItr_dget_ne (fid : Option String) (itr : List (String × String))
    (rootId : String) (x : String) (hx : ∀ f, fid = some f → x ≠ f) :
    dget (coreItr fid itr rootId) x = dget itr x := by
  cases fid with
  | none => rfl
  | some f =>
    by_cases hf : f = ""
    · subst hf; simp [coreItr]
    · rw [coreItr_some_ne f itr rootId hf]
      exact dget_dset_ne _ _ _ _ (hx f rfl)

theorem coreTs_eq_gene_skip (fid : Option String) (fc : Nat) (ft : String) (len : Int)
    (ts : List (String × Transcript)) (rootId : String)
    (h : ∀ f, fid = some f → f ≠ "" → ¬fc = 0) :
    coreTs fid fc ft len ts rootId rootId = ts := by
  unfold coreTs
  rw [if_pos (by simp)]
  cases fid with
  | none => rfl
  | some f =>
    by_cases hf : f = ""
    · simp [hf]
    · have : ((f == "") || !(fc == 0)) = true := by
        simp only [Bool.or_eq_true, Bool.not_eq_true']
        right
        simpa using h f rfl hf
      simp [this]

theorem coreTs_eq_exon (fid : Option String) (ft : String) (len : Int)
    (ts : List (String × Transcript)) (pid rootId : String) (hpr : ¬pid = rootId) :
    coreTs fid 1 ft len ts pid rootId =
      dset ts pid { coreLazyT ts pid rootId with
        exon_count := (coreLazyT ts pid rootId).exon_count + 1,
        exons_lengths := (coreLazyT ts pid rootId).exons_lengths ++ [len],
        exon_len_sum := (coreLazyT ts pid rootId).exon_len_sum + len } := by
  unfold coreTs
  rw [if_neg (by simpa using hpr)]
  rfl

theorem coreTs_eq_cds (fid : Option String) (ft : String) (len : Int)
    (ts : List (String × Transcript)) (pid rootId : String) (hpr : ¬pid = rootId) :
    coreTs fid 2 ft len ts pid rootId =
      dset ts pid { coreLazyT ts pid rootId with
        cds_count := (coreLazyT ts pid rootId).cds_count + 1,
        cds_len_sum := (coreLazyT ts pid rootId).cds_len_sum + len,
        cds_lengths := (coreLazyT ts pid rootId).cds_lengths ++ [len] } := by
  unfold coreTs
  rw [if_neg (by simpa using hpr)]
  rfl

theorem coreTs_eq_other (fid : Option String) (fc : Nat) (ft : String) (len : Int)
    (ts : List (String × Transcript)) (pid rootId : String) (hpr : ¬pid = rootId)
    (h1 : ¬fc = 1) (h2 : ¬fc = 2) :
    coreTs fid fc ft len ts pid rootId =
      (match dget ts pid with
       | some _ => ts
       | none => dset ts pid (coreLazyT ts pid rootId)) := by
  unfold coreTs
  rw [if_neg (by simpa using hpr), if_neg (by simpa using h1), if_neg (by simpa using h2)]

theorem coreRoots_eq_gene (fc : Nat) (roots : List (String × Gene))
    (ts : List (String × Transcript)) (rootId : String) :
    coreRoots fc roots ts rootId rootId = roots := by
  unfold coreRoots
  rw [if_pos (by simp)]

theorem coreRoots_eq_exon (roots : List (String × Gene)) (ts : List (String × Transcript))
    (pid rootId : String) (hpr : ¬pid = rootId) :
    coreRoots 1 roots ts pid rootId =
      dmodify (if (coreLazyT ts pid rootId).exon_count + 1 == 2 then
          dmodify roots rootId (fun g => { g with has_multiple_exons := true })
        else roots) rootId (fun g => { g with has_exon := true }) := by
  unfold coreRoots
  rw [if_neg (by simpa using hpr)]
  rfl

theorem coreRoots_eq_cds (roots : List (String × Gene)) (ts : List (String × Transcript))
    (pid rootId : String) (hpr : ¬pid = rootId) :
    coreRoots 2 roots ts pid rootId =
      dmodify roots rootId (fun g => { g with has_cds := true }) := by
  unfold coreRoots
  rw [if_neg (by simpa using hpr)]
  rfl

theorem coreRoots_eq_other (fc : Nat) (roots : List (String × Gene))
    (ts : List (String × Transcript)) (pid rootId : String) (hpr : ¬pid = rootId)
    (h1 : ¬fc = 1) (h2 : ¬fc = 2) :
    coreRoots fc roots ts pid rootId = roots := by
  unfold coreRoots
  rw [if_neg (by simpa using hpr), if_neg (by simpa using h1), if_neg (by simpa using h2)]

theorem stepParentCore_roots (fid : Option String) (fc : Nat) (ft : String) (len : Int)
    (s0 : Tables) (pid rootId : String) :
    (stepParentCore fid fc ft len s0 pid rootId).roots =
      coreRoots fc s0.roots s0.transcripts pid rootId := rfl

theorem coreTs_eq_case1_new (f ft : String) (len : Int) (ts : List (String × Transcript))
    (rootId : String) (hf : f ≠ "") (hg : dget ts f = none) :
    coreTs (some f) 0 ft len ts rootId rootId =
      dset ts f { Transcript.init rootId (some ft) with length := len } := by
  unfold coreTs
  simp only [hg, beq_self_eq_true, if_true]
  rw [if_neg (by simp [hf])]

theorem coreTs_gene_cases (fid : Option String) (fc : Nat) (ft : String) (len : Int)
    (ts : List (String × Transcript)) (rootId : String)
    (hnone : ∀ f, fid = some f → dget ts f = none) :
    coreTs fid fc ft len ts rootId rootId = ts ∨
    ∃ f, fid = some f ∧ f ≠ "" ∧ fc = 0 ∧
      coreTs fid fc ft len ts rootId rootId =
        dset ts f { Transcript.init rootId (some ft) with length := len } := by
  cases fid with
  | none => exact Or.inl (coreTs_eq_gene_skip none fc ft len ts rootId (by intro f h; cases h))
  | some f =>
    by_cases hf : f = ""
    · refine Or.inl (coreTs_eq_gene_skip (some f) fc ft len ts rootId ?_)
      intro f' hf' hne
      cases hf'
      exact absurd hf hne
    · by_cases hfc : fc = 0
      · subst hfc
        exact Or.inr ⟨f, rfl, hf, rfl, coreTs_eq_case1_new f ft len ts rootId hf (hnone f rfl)⟩
      · refine Or.inl (coreTs_eq_gene_skip (some f) fc ft len ts rootId ?_)
        intro f' hf' _
        cases hf'
        exact hfc

theorem coreLazyT_gene_id (ts : List (String × Transcript)) (pid rootId : String)
    (h : ∀ t, dget ts pid = some t → t.gene_id = rootId) :
    (coreLazyT ts pid rootId).gene_id = rootId := by
  unfold coreLazyT
  cases hd : dget ts pid with
  | some t => exact h t hd
  | none => rfl

theorem hasBig_dset_iff_small (m : List (String × Transcript)) (k : String) (v : Transcript)
    (g : String) (hvsmall : v.exon_count < 2 ∨ v.gene_id ≠ g)
    (holdsmall : ∀ t, dget m k = some t → (t.exon_count < 2 ∨ t.gene_id ≠ g)) :
    HasBig (dset m k v) g ↔ HasBig m g := by
  constructor
  · rintro ⟨x, t, hx, hgid, hcnt⟩
    rw [dget_dset] at hx
    by_cases hxk : x = k
    · rw [if_pos hxk] at hx
      cases hx
      rcases hvsmall with h | h
      · omega
      · exact absurd hgid h
    · rw [if_neg hxk] at hx
      exact ⟨x, t, hx, hgid, hcnt⟩
  · rintro ⟨x, t, hx, hgid, hcnt⟩
    by_cases hxk : x = k
    · subst hxk
      rcases holdsmall t hx with h | h
      · omega
      · exact absurd hgid h
    · exact ⟨x, t, by rw [dget_dset, if_neg hxk]; exact hx, hgid, hcnt⟩

theorem hasBig_dset_same (m : List (String × Transcript)) (k : String) (v : Transcript)
    (g : String)
    (h1 : ∀ t, dget m k = some t → t.gene_id = v.gene_id ∧ t.exon_count = v.exon_count)
    (h2 : dget m k = none → v.exon_count < 2) :
    HasBig (dset m k v) g ↔ HasBig m g := by
  cases hk : dget m k with
  | none =>
    exact hasBig_dset_iff_small m k v g (Or.inl (h2 hk)) (by intro t ht; rw [hk] at ht; cases ht)
  | some t0 =>
    obtain ⟨hg0, hc0⟩ := h1 t0 hk
    constructor
    · rintro ⟨x, t, hx, hgid, hcnt⟩
      rw [dget_dset] at hx
      by_cases hxk : x = k
      · rw [if_pos hxk] at hx
        cases hx
        exact ⟨k, t0, hk, by rw [hg0]; exact hgid, by omega⟩
      · rw [if_neg hxk] at hx
        exact ⟨x, t, hx, hgid, hcnt⟩
    · rintro ⟨x, t, hx, hgid, hcnt⟩
      by_cases hxk : x = k
      · rw [hxk, hk] at hx
        cases hx
        exact ⟨k, v, dget_dset_self _ _ _, by rw [← hg0]; exact hgid, by omega⟩
      · exact ⟨x, t, by rw [dget_dset, if_neg hxk]; exact hx, hgid, hcnt⟩

theorem coreRoots_dget_ne (fc : Nat) (roots : List (String × Gene))
    (ts : List (String × Transcript)) (pid rootId : String) (g : String)
    (hg : g ≠ rootId) : dget (coreRoots fc roots ts pid rootId) g = dget roots g := by
  unfold coreRoots
  repeat' split
  · rfl
  · rw [dget_dmodify_ne _ _ _ _ hg]
    split
    · exact dget_dmodify_ne _ _ _ _ hg
    · rfl
  · exact dget_dmodify_ne _ _ _ _ hg
  · rfl

theorem coreRoots_exon_flag (roots : List (String × Gene)) (ts : List (String × Transcript))
    (pid rootId : String) (hpr : ¬pid = rootId) (G : Gene)
    (hG : dget roots rootId = some G) :
    dget (coreRoots 1 roots ts pid rootId) rootId =
      some { G with has_exon := true, has_multiple_exons := G.has_multiple_exons || ((coreLazyT ts pid rootId).exon_count + 1 == 2) } := by
  rw [coreRoots_eq_exon roots ts pid rootId hpr]
  by_cases h2 : ((coreLazyT ts pid rootId).exon_count + 1 == 2) = true
  · rw [if_pos h2, dget_dmodify_self, dget_dmodify_self, hG]
    simp [h2]
  · rw [if_neg h2, dget_dmodify_self, hG]
    rw [Bool.not_eq_true] at h2
    simp [h2]

theorem coreRoots_cds_flag (roots : List (String × Gene)) (ts : List (String × Transcript))
    (pid rootId : String) (hpr : ¬pid = rootId) :
    dget (coreRoots 2 roots ts pid rootId) rootId =
      (dget roots rootId).map (fun g => { g with has_cds := true }) := by
  rw [coreRoots_eq_cds roots ts pid rootId hpr]
  exact dget_dmodify_self _ _ _

theorem c6_step_gene (s : Tables) (used : List String) (f ftype : String)
    (biotype : Option String) (len : Int)
    (hInv : C6Inv used s) (hfresh : f ∉ used) :
    C6Inv (used ++ [f])
      { s with roots := dset s.roots f (Gene.init ftype biotype len), id_to_root := dset s.id_to_root f f } := by
  obtain ⟨hU, hA, hR, hT, hB, hC⟩ := hInv
  have hfnone : dget s.id_to_root f = none := by
    cases hd : dget s.id_to_root f with
    | none => rfl
    | some r => exact absurd (hU f (by rw [hd]; rfl)) hfresh
  have hgid : ∀ x t, dget s.transcripts x = some t → t.gene_id ≠ f := by
    intro x t hx he
    have h3 := hR _ (hA x _ (hB x t hx))
    rw [he, hfnone] at h3
    cases h3
  refine ⟨?_, ?_, ?_, ?_, ?_, ?_⟩
  · show ∀ x, (dget (dset s.id_to_root f f) x).isSome = true → x ∈ used ++ [f]
    intro x hx
    by_cases hxf : x = f
    · exact List.mem_append_right _ (by rw [hxf]; exact List.mem_singleton_self f)
    · rw [dget_dset_ne _ _ _ _ hxf] at hx
      exact List.mem_append_left _ (hU x hx)
  · show ∀ x r, dget (dset s.id_to_root f f) x = some r →
      (dget (dset s.roots f (Gene.init ftype biotype len)) r).isSome = true
    intro x r hx
    by_cases hxf : x = f
    · rw [hxf, dget_dset_self] at hx
      cases hx
      rw [dget_dset_self]
      rfl
    · rw [dget_dset_ne _ _ _ _ hxf] at hx
      exact isSome_dget_dset _ _ _ _ (hA x r hx)
  · show ∀ g, (dget (dset s.roots f (Gene.init ftype biotype len)) g).isSome = true →
      (dget (dset s.id_to_root f f) g).isSome = true
    intro g hgs
    by_cases hgf : g = f
    · rw [hgf, dget_dset_self]
      rfl
    · rw [dget_dset_ne _ _ _ _ hgf] at hgs
      exact isSome_dget_dset _ _ _ _ (hR g hgs)
  · show ∀ x, (dget s.transcripts x).isSome = true → (dget (dset s.id_to_root f f) x).isSome = true
    intro x hx
    exact isSome_dget_dset _ _ _ _ (hT x hx)
  · show ∀ x t, dget s.transcripts x = some t → dget (dset s.id_to_root f f) x = some t.gene_id
    intro x t hx
    have hxne : x ≠ f := by
      intro he
      exact hfresh (he ▸ hU x (by rw [hB x t hx]; rfl))
    rw [dget_dset_ne _ _ _ _ hxne]
    exact hB x t hx
  · show ∀ g G, dget (dset s.roots f (Gene.init ftype biotype len)) g = some G →
      (G.has_multiple_exons = true ↔ HasBig s.transcripts g)
    intro g G hG
    by_cases hgf : g = f
    · rw [hgf, dget_dset_self] at hG
      cases hG
      constructor
      · intro h
        simp [Gene.init] at h
      · rintro ⟨x, t, hx, hgid', hcnt⟩
        rw [hgf] at hgid'
        exact absurd hgid' (hgid x t hx)
    · rw [dget_dset_ne _ _ _ _ hgf] at hG
      exact hC g G hG

theorem c6_core_B (s : Tables) (fid : Option String) (fc : Nat) (ft : String) (len : Int)
    (p rootId : String)
    (hB : ∀ x t, dget s.transcripts x = some t → dget s.id_to_root x = some t.gene_id)
    (hd : dget s.id_to_root p = some rootId)
    (htnone : ∀ f, fid = some f → dget s.transcripts f = none)
    (hpne : ∀ f, fid = some f → p ≠ f) :
    ∀ x t, dget (coreTs fid fc ft len s.transcripts p rootId) x = some t →
      dget (coreItr fid s.id_to_root rootId) x = some t.gene_id := by
  have hpgid : ∀ t0, dget s.transcripts p = some t0 → t0.gene_id = rootId := by
    intro t0 ht0
    have h := hB p t0 ht0
    rw [hd] at h
    exact (Option.some.inj h).symm
  have hgl : (coreLazyT s.transcripts p rootId).gene_id = rootId :=
    coreLazyT_gene_id s.transcripts p rootId hpgid
  have hxne : ∀ x t, dget s.transcripts x = some t → ∀ f, fid = some f → x ≠ f := by
    intro x t hx f hfid he
    rw [he, htnone f hfid] at hx
    cases hx
  intro x t hx
  by_cases hpr : p = rootId
  · subst hpr
    rcases coreTs_gene_cases fid fc ft len s.transcripts p htnone with hts | ⟨f, hfid, hf, -, hts⟩
    · rw [hts] at hx
      rw [coreItr_dget_ne fid s.id_to_root p x (hxne x t hx)]
      exact hB x t hx
    · subst hfid
      rw [hts] at hx
      by_cases hxf : x = f
      · rw [hxf] at hx ⊢
        rw [dget_dset_self] at hx
        cases hx
        rw [coreItr_some_ne f s.id_to_root p hf, dget_dset_self]
        rfl
      · rw [dget_dset_ne _ _ _ _ hxf] at hx
        rw [coreItr_dget_ne (some f) s.id_to_root p x (hxne x t hx)]
        exact hB x t hx
  · by_cases h1 : fc = 1
    · subst h1
      rw [coreTs_eq_exon fid ft len s.transcripts p rootId hpr] at hx
      by_cases hxp : x = p
      · rw [hxp] at hx ⊢
        rw [dget_dset_self] at hx
        cases hx
        rw [coreItr_dget_ne fid s.id_to_root rootId p hpne, hd]
        exact congrArg some hgl.symm
      · rw [dget_dset_ne _ _ _ _ hxp] at hx
        rw [coreItr_dget_ne fid s.id_to_root rootId x (hxne x t hx)]
        exact hB x t hx
    · by_cases h2 : fc = 2
      · subst h2
        rw [coreTs_eq_cds fid ft len s.transcripts p rootId hpr] at hx
        by_cases hxp : x = p
        · rw [hxp] at hx ⊢
          rw [dget_dset_self] at hx
          cases hx
          rw [coreItr_dget_ne fid s.id_to_root rootId p hpne, hd]
          exact congrArg some hgl.symm
        · rw [dget_dset_ne _ _ _ _ hxp] at hx
          rw [coreItr_dget_ne fid s.id_to_root rootId x (hxne x t hx)]
          exact hB x t hx
      · rw [coreTs_eq_other fid fc ft len s.transcripts p rootId hpr h1 h2] at hx
        cases htp : dget s.transcripts p with
        | some t0 =>
          rw [htp] at hx
          have hx' : dget s.transcripts x = some t := hx
          rw [coreItr_dget_ne fid s.id_to_root rootId x (hxne x t hx')]
          exact hB x t hx'
        | none =>
          rw [htp] at hx
          have hx' : dget (dset s.transcripts p (coreLazyT s.transcripts p rootId)) x = some t := hx
          by_cases hxp : x = p
          · rw [hxp] at hx' ⊢
            rw [dget_dset_self] at hx'
            cases hx'
            rw [coreItr_dget_ne fid s.id_to_root rootId p hpne, hd]
            exact congrArg some hgl.symm
          · rw [dget_dset_ne _ _ _ _ hxp] at hx'
            rw [coreItr_dget_ne fid s.id_to_root rootId x (hxne x t hx')]
            exact hB x t hx'

theorem c6_core_C (s : Tables) (fid : Option String) (fc : Nat) (ft : String) (len : Int)
    (p rootId : String)
    (hA : ∀ x r, dget s.id_to_root x = some r → (dget s.roots r).isSome = true)
    (hB : ∀ x t, dget s.transcripts x = some t → dget s.id_to_root x = some t.gene_id)
    (hC : ∀ g G, dget s.roots g = some G → (G.has_multiple_exons = true ↔ HasBig s.transcripts g))
    (hd : dget s.id_to_root p = some rootId)
    (htnone : ∀ f, fid = some f → dget s.transcripts f = none) :
    ∀ g G, dget (coreRoots fc s.roots s.transcripts p rootId) g = some G →
      (G.has_multiple_exons = true ↔ HasBig (coreTs fid fc ft len s.transcripts p rootId) g) := by
  have hpgid : ∀ t0, dget s.transcripts p = some t0 → t0.gene_id = rootId := by
    intro t0 ht0
    have h := hB p t0 ht0
    rw [hd] at h
    exact (Option.some.inj h).symm
  have hgl : (coreLazyT s.transcripts p rootId).gene_id = rootId :=
    coreLazyT_gene_id s.transcripts p rootId hpgid
  intro g G hG
  by_cases hpr : p = rootId
  · subst hpr
    rw [coreRoots_eq_gene fc s.roots s.transcripts p] at hG
    rcases coreTs_gene_cases fid fc ft len s.transcripts p htnone with hts | ⟨f, hfid, -, -, hts⟩
    · rw [hts]
      exact hC g G hG
    · rw [hts]
      have hsm : HasBig (dset s.transcripts f { Transcript.init p (some ft) with length := len }) g ↔ HasBig s.transcripts g := by
        apply hasBig_dset_iff_small
        · left
          show (0 : Nat) < 2
          decide
        · intro t ht
          rw [htnone f hfid] at ht
          cases ht
      rw [hsm]
      exact hC g G hG
  · by_cases h1 : fc = 1
    · subst h1
      rw [coreTs_eq_exon fid ft len s.transcripts p rootId hpr]
      by_cases hg : g = rootId
      · subst hg
        have hRs : (dget s.roots g).isSome = true := hA p g hd
        cases hG0 : dget s.roots g with
        | none =>
          rw [hG0] at hRs
          cases hRs
        | some G0 =>
          rw [coreRoots_exon_flag s.roots s.transcripts p g hpr G0 hG0] at hG
          cases hG
          show (G0.has_multiple_exons || ((coreLazyT s.transcripts p g).exon_count + 1 == 2)) = true ↔ HasBig (dset s.transcripts p { coreLazyT s.transcripts p g with exon_count := (coreLazyT s.transcripts p g).exon_count + 1, exons_lengths := (coreLazyT s.transcripts p g).exons_lengths ++ [len], exon_len_sum := (coreLazyT s.transcripts p g).exon_len_sum + len }) g
          cases hcnt : (coreLazyT s.transcripts p g).exon_count with
          | zero =>
            have hsm : HasBig (dset s.transcripts p { coreLazyT s.transcripts p g with exon_count := 0 + 1, exons_lengths := (coreLazyT s.transcripts p g).exons_lengths ++ [len], exon_len_sum := (coreLazyT s.transcripts p g).exon_len_sum + len }) g ↔ HasBig s.transcripts g := by
              apply hasBig_dset_iff_small
              · left
                show 0 + 1 < 2
                decide
              · intro t ht
                left
                have he : coreLazyT s.transcripts p g = t := by
                  unfold coreLazyT
                  rw [ht]
                rw [he] at hcnt
                omega
            rw [hsm]
            have hb : (((0 : Nat) + 1) == 2) = false := rfl
            rw [hb, Bool.or_false]
            exact hC g G0 hG0
          | succ n =>
            constructor
            · intro h0
              refine ⟨p, _, dget_dset_self _ _ _, ?_, ?_⟩
              · exact hgl
              · show 2 ≤ n + 1 + 1
                omega
            · intro h0
              cases n with
              | zero =>
                have hb : ((((0 : Nat) + 1) + 1) == 2) = true := rfl
                rw [hb, Bool.or_true]
              | succ m =>
                have hsome : dget s.transcripts p = some (coreLazyT s.transcripts p g) := by
                  unfold coreLazyT
                  cases htp : dget s.transcripts p with
                  | some t => rfl
                  | none =>
                    unfold coreLazyT at hcnt
                    rw [htp] at hcnt
                    have h00 : (Transcript.init g none).exon_count = 0 := rfl
                    rw [h00] at hcnt
                    cases hcnt
                have hold : HasBig s.transcripts g :=
                  ⟨p, coreLazyT s.transcripts p g, hsome, hgl, by rw [hcnt]; omega⟩
                have hflag := (hC g G0 hG0).mpr hold
                rw [hflag, Bool.true_or]
      · rw [coreRoots_dget_ne 1 s.roots s.transcripts p rootId g hg] at hG
        have hsm : HasBig (dset s.transcripts p { coreLazyT s.transcripts p rootId with exon_count := (coreLazyT s.transcripts p rootId).exon_count + 1, exons_lengths := (coreLazyT s.transcripts p rootId).exons_lengths ++ [len], exon_len_sum := (coreLazyT s.transcripts p rootId).exon_len_sum + len }) g ↔ HasBig s.transcripts g := by
          apply hasBig_dset_iff_small
          · right
            intro he
            have he' : rootId = g := by
              rw [← hgl]
              exact he
            exact hg he'.symm
          · intro t ht
            right
            intro he
            have he' : rootId = g := by
              rw [← hpgid t ht]
              exact he
            exact hg he'.symm
        rw [hsm]
        exact hC g G hG
    · by_cases h2 : fc = 2
      · subst h2
        rw [coreTs_eq_cds fid ft len s.transcripts p rootId hpr]
        have hsm : HasBig (dset s.transcripts p { coreLazyT s.transcripts p rootId with cds_count := (coreLazyT s.transcripts p rootId).cds_count + 1, cds_len_sum := (coreLazyT s.transcripts p rootId).cds_len_sum + len, cds_lengths := (coreLazyT s.transcripts p rootId).cds_lengths ++ [len] }) g ↔ HasBig s.transcripts g := by
          apply hasBig_dset_same
          · intro t ht
            have he : coreLazyT s.transcripts p rootId = t := by
              unfold coreLazyT
              rw [ht]
            exact ⟨(congrArg Transcript.gene_id he).symm, (congrArg Transcript.exon_count he).symm⟩
          · intro hnone
            show (coreLazyT s.transcripts p rootId).exon_count < 2
            unfold coreLazyT
            rw [hnone]
            show (0 : Nat) < 2
            decide
        rw [hsm]
        by_cases hg : g = rootId
        · subst hg
          rw [coreRoots_cds_flag s.roots s.transcripts p g hpr] at hG
          cases hG0 : dget s.roots g with
          | none =>
            rw [hG0] at hG
            cases hG
          | some G0 =>
            rw [hG0] at hG
            rw [Option.map_some'] at hG
            cases hG
            show G0.has_multiple_exons = true ↔ HasBig s.transcripts g
            exact hC g G0 hG0
        · rw [coreRoots_dget_ne 2 s.roots s.transcripts p rootId g hg] at hG
          exact hC g G hG
      · rw [coreRoots_eq_other fc s.roots s.transcripts p rootId hpr h1 h2] at hG
        rw [coreTs_eq_other fid fc ft len s.transcripts p rootId hpr h1 h2]
        cases htp : dget s.transcripts p with
        | some t0 =>
          exact hC g G hG
        | none =>
          show G.has_multiple_exons = true ↔ HasBig (dset s.transcripts p (coreLazyT s.transcripts p rootId)) g
          have hsm : HasBig (dset s.transcripts p (coreLazyT s.transcripts p rootId)) g ↔ HasBig s.transcripts g := by
            apply hasBig_dset_iff_small
            · left
              unfold coreLazyT
              rw [htp]
              show (0 : Nat) < 2
              decide
            · intro t ht
              rw [htp] at ht
              cases ht
          rw [hsm]
          exact hC g G hG

theorem c6_step_core (s : Tables) (used : List String) (fid : Option String) (fc : Nat)
    (ft : String) (len : Int) (p rootId : String)
    (hInv : C6Inv used s) (hd : dget s.id_to_root p = some rootId)
    (hfresh : ∀ f, fid = some f → f ∉ used) :
    C6Inv (used ++ fid.toList) (stepParentCore fid fc ft len s p rootId) := by
  obtain ⟨hU, hA, hR, hT, hB, hC⟩ := hInv
  have htnone : ∀ f, fid = some f → dget s.transcripts f = none := by
    intro f hfid
    cases hdf : dget s.transcripts f with
    | none => rfl
    | some t =>
      have h1 := hT f (by rw [hdf]; rfl)
      exact absurd (hU f h1) (hfresh f hfid)
  have hkne : ∀ x, (dget s.transcripts x).isSome = true → ∀ f, fid = some f → x ≠ f := by
    intro x hx f hfid he
    rw [he, htnone f hfid] at hx
    cases hx
  have hpne : ∀ f, fid = some f → p ≠ f := by
    intro f hfid he
    exact hfresh f hfid (he ▸ hU p (by rw [hd]; rfl))
  refine ⟨?_, ?_, ?_, ?_, ?_, ?_⟩
  · show ∀ x, (dget (coreItr fid s.id_to_root rootId) x).isSome = true → x ∈ used ++ fid.toList
    intro x hx
    rcases coreItr_dget fid s.id_to_root rootId x with hsame | ⟨f, hfid, hxf, -⟩
    · rw [hsame] at hx
      exact List.mem_append_left _ (hU x hx)
    · rw [hxf, hfid]
      exact List.mem_append_right _ (List.mem_singleton_self f)
  · show ∀ x r, dget (coreItr fid s.id_to_root rootId) x = some r →
      (dget (coreRoots fc s.roots s.transcripts p rootId) r).isSome = true
    intro x r hx
    rw [coreRoots_dget_isSome]
    rcases coreItr_dget fid s.id_to_root rootId x with hsame | ⟨f, hfid, hxf, hval⟩
    · rw [hsame] at hx
      exact hA x r hx
    · rw [hval] at hx
      cases hx
      exact hA p rootId hd
  · show ∀ g, (dget (coreRoots fc s.roots s.transcripts p rootId) g).isSome = true →
      (dget (coreItr fid s.id_to_root rootId) g).isSome = true
    intro g hgs
    rw [coreRoots_dget_isSome] at hgs
    exact coreItr_isSome_mono fid _ rootId g (hR g hgs)
  · show ∀ x, (dget (coreTs fid fc ft len s.transcripts p rootId) x).isSome = true →
      (dget (coreItr fid s.id_to_root rootId) x).isSome = true
    intro x hx
    by_cases hpr : p = rootId
    · subst hpr
      rcases coreTs_gene_cases fid fc ft len s.transcripts p htnone with hts | ⟨f, hfid, hf, -, hts⟩
      · rw [hts] at hx
        exact coreItr_isSome_mono fid _ p x (hT x hx)
      · subst hfid
        rw [hts] at hx
        by_cases hxf : x = f
        · rw [hxf, coreItr_some_ne f s.id_to_root p hf, dget_dset_self]
          rfl
        · rw [dget_dset_ne _ _ _ _ hxf] at hx
          exact coreItr_isSome_mono (some f) _ p x (hT x hx)
    · by_cases h1 : fc = 1
      · subst h1
        rw [coreTs_eq_exon fid ft len s.transcripts p rootId hpr] at hx
        by_cases hxp : x = p
        · rw [hxp]
          exact coreItr_isSome_mono fid _ rootId p (by rw [hd]; rfl)
        · rw [dget_dset_ne _ _ _ _ hxp] at hx
          exact coreItr_isSome_mono fid _ rootId x (hT x hx)
      · by_cases h2 : fc = 2
        · subst h2
          rw [coreTs_eq_cds fid ft len s.transcripts p rootId hpr] at hx
          by_cases hxp : x = p
          · rw [hxp]
            exact coreItr_isSome_mono fid _ rootId p (by rw [hd]; rfl)
          · rw [dget_dset_ne _ _ _ _ hxp] at hx
            exact coreItr_isSome_mono fid _ rootId x (hT x hx)
        · rw [coreTs_eq_other fid fc ft len s.transcripts p rootId hpr h1 h2] at hx
          cases htp : dget s.transcripts p with
          | some t0 =>
            rw [htp] at hx
            have hx' : (dget s.transcripts x).isSome = true := hx
            exact coreItr_isSome_mono fid _ rootId x (hT x hx')
          | none =>
            rw [htp] at hx
            have hx' : (dget (dset s.transcripts p (coreLazyT s.transcripts p rootId)) x).isSome = true := hx
            by_cases hxp : x = p
            · rw [hxp]
              exact coreItr_isSome_mono fid _ rootId p (by rw [hd]; rfl)
            · rw [dget_dset_ne _ _ _ _ hxp] at hx'
              exact coreItr_isSome_mono fid _ rootId x (hT x hx')
  · exact c6_core_B s fid fc ft len p rootId hB hd htnone hpne
  · exact c6_core_C s fid fc ft len p rootId hA hB hC hd htnone

theorem c6Inv_mono (used used' : List String) (s : Tables)
    (hsub : ∀ x, x ∈ used → x ∈ used') (h : C6Inv used s) : C6Inv used' s := by
  obtain ⟨hU, h2, h3, h4, h5, h6⟩ := h
  exact ⟨fun x hx => hsub x (hU x hx), h2, h3, h4, h5, h6⟩

theorem stepParent_fst (fid : Option String) (fc : Nat) (ft : String) (len : Int)
    (s : Tables) (b : Bool) (p : String) :
    (stepParent fid fc ft len (s, b) p).1 =
      (match dget s.id_to_root p with
       | none => s
       | some rootId => stepParentCore fid fc ft len s p rootId) := by
  unfold stepParent
  cases dget s.id_to_root p <;> rfl

theorem c6_call (s : Tables) (used : List String) (c : Call)
    (hInv : C6Inv used s) (hpar : c.parents.length ≤ 1)
    (hfresh : ∀ f, c.fid = some f → f ∉ used) :
    C6Inv (used ++ c.fid.toList)
      (process_feature c.fid c.ftype c.len c.parents c.biotype s).1 := by
  unfold process_feature
  by_cases hg : (c.parents.isEmpty && strTruthy c.fid) = true
  · rw [if_pos hg]
    simp only [Bool.and_eq_true] at hg
    obtain ⟨-, htr⟩ := hg
    cases hc : c.fid with
    | none =>
      rw [hc] at htr
      simp [strTruthy] at htr
    | some f =>
      exact c6_step_gene s used f c.ftype c.biotype c.len hInv (hfresh f hc)
  · rw [if_neg hg]
    cases hps : c.parents with
    | nil =>
      exact c6Inv_mono used (used ++ c.fid.toList) s
        (fun x hx => List.mem_append_left _ hx) hInv
    | cons p rest =>
      have hlen : rest.length = 0 := by
        rw [hps] at hpar
        simp only [List.length_cons] at hpar
        omega
      have hr := List.length_eq_zero.mp hlen
      subst hr
      show C6Inv (used ++ c.fid.toList)
        (stepParent c.fid (featCode c.ftype) c.ftype c.len (s, false) p).1
      rw [stepParent_fst]
      cases hd : dget s.id_to_root p with
      | none =>
        exact c6Inv_mono used (used ++ c.fid.toList) s
          (fun x hx => List.mem_append_left _ hx) hInv
      | some rootId =>
        exact c6_step_core s used c.fid (featCode c.ftype) c.ftype c.len p rootId
          ⟨hInv.1, hInv.2.1, hInv.2.2.1, hInv.2.2.2.1, hInv.2.2.2.2.1, hInv.2.2.2.2.2⟩ hd hfresh

theorem c6_run (calls : List Call) (s : Tables) (used : List String)
    (hInv : C6Inv used s)
    (hpar : ∀ c ∈ calls, c.parents.length ≤ 1)
    (hfresh : ∀ c ∈ calls, ∀ f, c.fid = some f → f ∉ used)
    (hnodup : (calls.filterMap Call.fid).Nodup) :
    C6Inv (used ++ calls.filterMap Call.fid)
      (calls.foldl (fun s c => (process_feature c.fid c.ftype c.len c.parents c.biotype s).1) s) := by
  induction calls generalizing s used with
  | nil =>
    simp only [List.filterMap_nil, List.append_nil, List.foldl_nil]
    exact hInv
  | cons c rest ih =>
    simp only [List.foldl_cons]
    have hmem0 : c ∈ c :: rest := List.mem_cons_self c rest
    have hstep := c6_call s used c hInv (hpar c hmem0) (hfresh c hmem0)
    have hpar' : ∀ c' ∈ rest, c'.parents.length ≤ 1 :=
      fun c' hc' => hpar c' (List.mem_cons_of_mem c hc')
    cases hc : c.fid with
    | none =>
      have hfresh' : ∀ c' ∈ rest, ∀ f, c'.fid = some f → f ∉ used ++ c.fid.toList := by
        intro c' hc' f hf hmem
        rw [hc] at hmem
        simp only [Option.toList_none, List.append_nil] at hmem
        exact hfresh c' (List.mem_cons_of_mem c hc') f hf hmem
      simp only [List.filterMap_cons, hc] at hnodup ⊢
      have hrest := ih ((process_feature c.fid c.ftype c.len c.parents c.biotype s).1)
        (used ++ c.fid.toList) hstep hpar' hfresh' hnodup
      rw [hc] at hrest
      refine c6Inv_mono _ _ _ ?_ hrest
      intro x hx
      simp only [List.mem_append, hc, Option.toList_none, List.not_mem_nil, or_false] at hx
      simp only [List.mem_append]
      exact hx
    | some f0 =>
      simp only [List.filterMap_cons, hc] at hnodup ⊢
      obtain ⟨hnotin, hnodup'⟩ := List.nodup_cons.mp hnodup
      have hfresh' : ∀ c' ∈ rest, ∀ f, c'.fid = some f → f ∉ used ++ c.fid.toList := by
        intro c' hc' f hf hmem
        rw [hc] at hmem
        rcases List.mem_append.mp hmem with hm | hm
        · exact hfresh c' (List.mem_cons_of_mem c hc') f hf hm
        · have hf0 : f = f0 := by simpa using hm
          have hfm : f ∈ rest.filterMap Call.fid := List.mem_filterMap.mpr ⟨c', hc', hf⟩
          rw [hf0] at hfm
          exact hnotin hfm
      have hrest := ih ((process_feature c.fid c.ftype c.len c.parents c.biotype s).1)
        (used ++ c.fid.toList) hstep hpar' hfresh' hnodup'
      rw [hc] at hrest
      refine c6Inv_mono _ _ _ ?_ hrest
      intro x hx
      simp only [List.mem_append, hc, Option.toList_some, List.mem_singleton] at hx
      simp only [List.mem_append, List.mem_cons]
      tauto

/-- Claim C6 (amended): at stream end of any run of `process_feature` calls
from empty tables in which every feature lists at most one parent and no two
features share a feature id, `has_multiple_exons(g)` is true if and only if
some transcript whose `gene_id` is `g` has `exon_count ≥ 2`. -/
theorem gffy_c6_has_multiple_exons_iff_fresh (calls : List Call)
    (hpar : ∀ c ∈ calls, c.parents.length ≤ 1)
    (hnodup : (calls.filterMap Call.fid).Nodup)
    (g : String) (G : Gene) (hG : dget (runCalls calls).roots g = some G) :
    G.has_multiple_exons = true ↔ HasBig (runCalls calls).transcripts g := by
  have hInv0 : C6Inv [] Tables.empty :=
    ⟨fun x hx => Bool.noConfusion hx, fun x r hx => Option.noConfusion hx,
     fun g' hg' => Bool.noConfusion hg', fun x hx => Bool.noConfusion hx,
     fun x t hx => Option.noConfusion hx, fun g' G' hG' => Option.noConfusion hG'⟩
  have hrun := c6_run calls Tables.empty [] hInv0 hpar
    (fun c hc f hf => List.not_mem_nil f) hnodup
  exact hrun.2.2.2.2.2 g G hG

/-- Witness for the amended C6 theorem: the seed run (one gene, one
transcript, two exons, one CDS) satisfies both side conditions, and applying
the theorem to gene `g1` yields a two-exon transcript of `g1`. -/
theorem gffy_c6_has_multiple_exons_iff_fresh_witness :
    (∀ c ∈ seedCalls, c.parents.length ≤ 1) ∧ (seedCalls.filterMap Call.fid).Nodup ∧
      HasBig (runCalls seedCalls).transcripts "g1" := by
  refine ⟨by decide, by decide, ?_⟩
  have h := gffy_c6_has_multiple_exons_iff_fresh seedCalls (by decide) (by decide) "g1"
    (Gene.mk "gene" (some "protein_coding") 300 true true true) (by decide)
  exact h.mp rfl

set_option maxHeartbeats 4000000 in
set_option maxRecDepth 10000 in
/-- Claim C3 (amended): shuffling the row order of a valid GFF3 need not
preserve the report.  A feature listing several parents keeps only the
attributions to the parents already known when its row arrives, so moving
the shared exon before the second mRNA changes the report (`rowsPerm`
versus `rowsOrig`); and orphan resolution makes at most 20 passes, so even
a stream whose rows all list at most one parent changes its report when a
child-before-parent order nests a chain deeper than that cap
(`rowsDeepRev` versus `rowsDeep`). -/
theorem gffy_c3_shuffle_changes_report :
    (rowsPerm.Perm rowsOrig ∧
      reportsEqUpToTypeOrder (gffReport rowsOrig) (gffReport rowsPerm) = false) ∧
    (rowsDeepRev.Perm rowsDeep ∧ rowsSingleParent rowsDeep = true ∧
      reportsEqUpToTypeOrder (gffReport rowsDeep) (gffReport rowsDeepRev) = false) := by
  decide

end Gffy
